import Mathlib

/-!
Verification of the harbor_bridge native-messaging bridge and local process
supervisor, as a shallow embedding in Lean 4.

The embedding follows `src/bridge/src/harbor_bridge/`:
* `native_messaging.py` — the length-prefixed JSON framing codec
  (`encode_message`, `decode_payload`, `_read_stdin_sync`);
* `installer/runner.py` — the per-server process lifecycle state machine
  (`start_server`, `stop_server`, `_monitor_process`);
* `installer/manager.py` and `installer/secrets.py` — the installed-server
  registry (`start`, `get_missing_secrets`) and the secret store;
* `server_store.py` — the connection store (`load`, `save`, `update_status`);
* `handlers.py` — the dispatch router (`dispatch_message`).

Python dictionaries holding JSON data are modelled by the inductive `Json`
type below (association lists for objects, `List Char` for strings).  The
CPython `json` module semantics (`json.dumps` with compact separators and
`ensure_ascii`, `json.loads` with its strict recursive-descent scanner) are
translated into the executable functions `Json.ser` / `json_loads`.  JSON
numbers are modelled as arbitrary-precision integers, matching Python `int`;
floating-point literals (a fraction or exponent part) are outside the model
and make the model parser return `none` where CPython would produce a
`float`.  File writes are modelled as explicit traces of file-system
operations, and blocking stream reads as functions of the full byte
sequence remaining on the stream.
-/

/-- JSON values as produced by `json.loads` / consumed by `json.dumps`:
`null`, booleans, (integer) numbers, strings, arrays, and objects.  Objects
are association lists in insertion order, mirroring Python `dict`. -/
inductive Json where
  | null : Json
  | bool (b : Bool) : Json
  | int (n : Int) : Json
  | str (s : List Char) : Json
  | arr (items : List Json) : Json
  | obj (members : List (List Char × Json)) : Json
  deriving Repr

/-- A JSON object body: what a Python dictionary with string keys holds. -/
abbrev JObj := List (List Char × Json)

/-! ## Serializer: `json.dumps(message, separators=(",", ":"))`

CPython serializes with `ensure_ascii=True` by default: every character
outside printable ASCII is emitted as a `\uXXXX` escape (a surrogate pair
for astral characters), so the serialized text is pure ASCII. -/

/-- Lowercase hexadecimal digit, as produced by CPython's `"\u%04x"`. -/
def hexDigitChar (n : Nat) : Char :=
  if n < 10 then Char.ofNat (48 + n) else Char.ofNat (87 + n)

/-- Four lowercase hex digits for `n < 0x10000`, most significant first. -/
def hex4 (n : Nat) : List Char :=
  [hexDigitChar (n / 4096 % 16), hexDigitChar (n / 256 % 16),
   hexDigitChar (n / 16 % 16), hexDigitChar (n % 16)]

/-- Escape one character the way `json.encoder.py_encode_basestring_ascii`
does: the two-character escapes from `ESCAPE_DCT`, printable ASCII
verbatim, and `\uXXXX` (with a surrogate pair above `0xFFFF`) otherwise. -/
def escChar (c : Char) : List Char :=
  if c = '\\' then ['\\', '\\']
  else if c = '"' then ['\\', '"']
  else if c = Char.ofNat 8 then ['\\', 'b']
  else if c = Char.ofNat 9 then ['\\', 't']
  else if c = Char.ofNat 10 then ['\\', 'n']
  else if c = Char.ofNat 12 then ['\\', 'f']
  else if c = Char.ofNat 13 then ['\\', 'r']
  else if 0x20 ≤ c.toNat ∧ c.toNat ≤ 0x7e then [c]
  else if c.toNat < 0x10000 then '\\' :: 'u' :: hex4 c.toNat
  else
    '\\' :: 'u' :: hex4 (0xD800 + (c.toNat - 0x10000) / 0x400) ++
      '\\' :: 'u' :: hex4 (0xDC00 + (c.toNat - 0x10000) % 0x400)

/-- Serialize a JSON string: quote, escaped body, quote. -/
def serStr (s : List Char) : List Char :=
  '"' :: (s.map escChar).flatten ++ ['"']

/-- Decimal digits with explicit recursion fuel (any fuel above the value
itself is enough); structural recursion keeps the definition computable by
the kernel. -/
def natDigitsF : Nat → Nat → List Char
  | 0, _ => []
  | fuel + 1, n =>
    if n < 10 then [Char.ofNat (48 + n)]
    else natDigitsF fuel (n / 10) ++ [Char.ofNat (48 + n % 10)]

/-- Decimal digits of a natural number, as Python `repr(int)` produces
them: no leading zeros, `"0"` for zero. -/
def natDigits (n : Nat) : List Char := natDigitsF (n + 1) n

/-- Decimal representation of a Python `int`. -/
def intChars (n : Int) : List Char :=
  if n < 0 then '-' :: natDigits n.natAbs else natDigits n.toNat

mutual

/-- Compact serialization of a JSON value — `json.dumps` with separators
`","` and `":"` and `ensure_ascii` (the defaults used by
`encode_message`). -/
def Json.ser : Json → List Char
  | .int n => intChars n
  | .str s => serStr s
  | .null => ['n', 'u', 'l', 'l']
  | .bool false => ['f', 'a', 'l', 's', 'e']
  | .bool true => ['t', 'r', 'u', 'e']
  | .arr xs => '[' :: serItems xs ++ [']']
  | .obj kvs => '{' :: serMembers kvs ++ ['}']

/-- Array items joined by the item separator `","`. -/
def serItems : List Json → List Char
  | [] => []
  | [x] => x.ser
  | x :: y :: xs => x.ser ++ ',' :: serItems (y :: xs)

/-- Object members `key:value` joined by `","`. -/
def serMembers : JObj → List Char
  | [] => []
  | [(k, v)] => serStr k ++ ':' :: v.ser
  | (k, v) :: m :: kvs => serStr k ++ ':' :: v.ser ++ ',' :: serMembers (m :: kvs)

end

/-! ## Parser: `json.loads`

Translation of CPython's pure-Python scanner (`json.scanner.py_make_scanner`,
`json.decoder.py_scanstring`, `JSONObject`, `JSONArray`) with the default
strict mode.  Errors raise `JSONDecodeError` in Python; the model returns
`none`.  Whitespace handling is made uniform: the scanner itself never
skips whitespace, its callers do (`skipWs` below).  A matched fraction or
exponent part makes the number a Python `float`, which is outside this
integer model: the model parser answers `none` there (`parseNumber`); the
same holds for the `NaN` / `Infinity` / `-Infinity` constants. -/

/-- JSON whitespace, Python's `WHITESPACE_STR = ' \t\n\r'`. -/
def isJsonWs (c : Char) : Bool :=
  c = ' ' || c = Char.ofNat 9 || c = Char.ofNat 10 || c = Char.ofNat 13

/-- Drop leading JSON whitespace (the `_w(s, idx).end()` idiom). -/
def skipWs : List Char → List Char
  | [] => []
  | c :: r => if isJsonWs c then skipWs r else c :: r

/-- Value of one hexadecimal digit, either case (`int(esc, 16)`). -/
def hexVal (c : Char) : Option Nat :=
  if '0' ≤ c ∧ c ≤ '9' then some (c.toNat - 48)
  else if 'a' ≤ c ∧ c ≤ 'f' then some (c.toNat - 87)
  else if 'A' ≤ c ∧ c ≤ 'F' then some (c.toNat - 55)
  else none

/-- Read exactly four hex digits (`_decode_uXXXX`). -/
def parseHex4 : List Char → Option (Nat × List Char)
  | a :: b :: c :: d :: rest => do
    let x ← hexVal a
    let y ← hexVal b
    let z ← hexVal c
    let w ← hexVal d
    some (x * 4096 + y * 256 + z * 16 + w, rest)
  | _ => none

/-- The two-character backslash escapes (`BACKSLASH` table minus `\u`). -/
def escDecode (c : Char) : Option Char :=
  if c = '"' then some '"'
  else if c = '\\' then some '\\'
  else if c = '/' then some '/'
  else if c = 'b' then some (Char.ofNat 8)
  else if c = 'f' then some (Char.ofNat 12)
  else if c = 'n' then some (Char.ofNat 10)
  else if c = 'r' then some (Char.ofNat 13)
  else if c = 't' then some (Char.ofNat 9)
  else none

/-- Scan a string body after the opening quote (`py_scanstring`, strict
mode): literal characters must not be control characters; `\uXXXX` after a
high surrogate merges with a following low-surrogate escape.  In strict
CPython a lone surrogate stays in the `str`; Lean characters cannot carry
it, so that branch (unreachable from serializer output, which only emits
paired surrogates) goes through `Char.ofNat`'s fallback.  Fuel decreases
on every consumed character, so `length + 1` always suffices. -/
def scanString : Nat → List Char → Option (List Char × List Char)
  | 0, _ => none
  | _, [] => none
  | fuel + 1, c :: rest =>
    if c = '"' then some ([], rest)
    else if c = '\\' then
      match rest with
      | [] => none
      | e :: rest2 =>
        if e = 'u' then
          match parseHex4 rest2 with
          | none => none
          | some (n, rest3) =>
            if 0xD800 ≤ n ∧ n ≤ 0xDBFF then
              match rest3 with
              | '\\' :: 'u' :: rest4 =>
                match parseHex4 rest4 with
                | some (n2, rest5) =>
                  if 0xDC00 ≤ n2 ∧ n2 ≤ 0xDFFF then
                    (scanString fuel rest5).map fun p =>
                      (Char.ofNat (0x10000 + (n - 0xD800) * 0x400 + (n2 - 0xDC00)) :: p.1, p.2)
                  else (scanString fuel rest3).map fun p => (Char.ofNat n :: p.1, p.2)
                | none => (scanString fuel rest3).map fun p => (Char.ofNat n :: p.1, p.2)
              | _ => (scanString fuel rest3).map fun p => (Char.ofNat n :: p.1, p.2)
            else (scanString fuel rest3).map fun p => (Char.ofNat n :: p.1, p.2)
        else
          match escDecode e with
          | some d => (scanString fuel rest2).map fun p => (d :: p.1, p.2)
          | none => none
    else if c.toNat < 0x20 then none
    else (scanString fuel rest).map fun p => (c :: p.1, p.2)

/-- ASCII decimal digit test. -/
def isDigitC (c : Char) : Bool := '0' ≤ c && c ≤ '9'

/-- Split off the longest leading run of decimal digits. -/
def takeDigits : List Char → List Char × List Char
  | [] => ([], [])
  | c :: r =>
    if isDigitC c then
      let p := takeDigits r
      (c :: p.1, p.2)
    else ([], c :: r)

/-- Value of a digit string, as `int()` computes it. -/
def digitsVal (ds : List Char) : Nat :=
  ds.foldl (fun a c => a * 10 + (c.toNat - 48)) 0

/-- Integer part of `NUMBER_RE`: `0`, or a nonzero digit followed by any
digits.  A leading zero is never extended (`(?:0|[1-9]\d*)`). -/
def parseIntPart : List Char → Option (Nat × List Char)
  | [] => none
  | c :: r =>
    if c = '0' then some (0, r)
    else if isDigitC c then
      let p := takeDigits r
      some (digitsVal (c :: p.1), p.2)
    else none

/-- Does a fraction part `(\.\d+)` start here? -/
def startsFrac : List Char → Bool
  | '.' :: c :: _ => isDigitC c
  | _ => false

/-- Does an exponent part `([eE][-+]?\d+)` start here? -/
def startsExp : List Char → Bool
  | 'e' :: r | 'E' :: r =>
    match r with
    | '+' :: c :: _ => isDigitC c
    | '-' :: c :: _ => isDigitC c
    | c :: _ => isDigitC c
    | [] => false
  | _ => false

/-- Scan a number per `NUMBER_RE`.  If a fraction or exponent part
matches, CPython builds a `float`; the integer model stops with `none`
there.  Otherwise the integer part is converted with `int()`. -/
def parseNumber (cs : List Char) : Option (Json × List Char) :=
  match cs with
  | [] => none
  | c :: r =>
    match parseIntPart (if c = '-' then r else c :: r) with
    | none => none
    | some (n, rest) =>
      if startsFrac rest || startsExp rest then none
      else some (.int (if c = '-' then -(n : Int) else (n : Int)), rest)

/-- Insert one key/value pair into a Python dict modelled as an
association list: an existing key keeps its position and gets the new
value, a new key is appended. -/
def insertPair (m : JObj) (k : List Char) (v : Json) : JObj :=
  match m with
  | [] => [(k, v)]
  | (k0, v0) :: rest =>
    if k0 = k then (k0, v) :: rest else (k0, v0) :: insertPair rest k v

/-- `dict(pairs)`: fold the scanned member list into a dict. -/
def pairsToObj (ps : JObj) : JObj :=
  ps.foldl (fun m p => insertPair m p.1 p.2) []

/-- Match an exact keyword tail (`s[idx:idx + n] == literal`). -/
def parseLit : List Char → List Char → Option (List Char)
  | [], cs => some cs
  | l :: ls, c :: cs => if c = l then parseLit ls cs else none
  | _ :: _, [] => none

mutual

/-- One value, `_scan_once`: dispatch on the first character (no leading
whitespace).  `parseItems` / `parseMembers` handle the non-empty bodies of
`[...]` / `{...}` after their opening bracket and whitespace. -/
def parseVal : Nat → List Char → Option (Json × List Char)
  | 0, _ => none
  | fuel + 1, cs =>
    match cs with
    | [] => none
    | c :: rest =>
      if c = '"' then (scanString (rest.length + 1) rest).map fun p => (.str p.1, p.2)
      else if c = '{' then
        match skipWs rest with
        | '}' :: r2 => some (.obj [], r2)
        | cs2 => (parseMembers fuel cs2).map fun p => (.obj (pairsToObj p.1), p.2)
      else if c = '[' then
        match skipWs rest with
        | ']' :: r2 => some (.arr [], r2)
        | cs2 => (parseItems fuel cs2).map fun p => (.arr p.1, p.2)
      else if c = 'n' then (parseLit ['u', 'l', 'l'] rest).map fun r => (.null, r)
      else if c = 't' then (parseLit ['r', 'u', 'e'] rest).map fun r => (.bool true, r)
      else if c = 'f' then (parseLit ['a', 'l', 's', 'e'] rest).map fun r => (.bool false, r)
      else if c = '-' || isDigitC c then parseNumber (c :: rest)
      else none

/-- `JSONArray`'s loop for a non-empty array: value, then `,` (and more
items) or `]`. -/
def parseItems : Nat → List Char → Option (List Json × List Char)
  | 0, _ => none
  | fuel + 1, cs =>
    match parseVal fuel cs with
    | none => none
    | some (v, rest) =>
      match skipWs rest with
      | ',' :: r2 => (parseItems fuel (skipWs r2)).map fun p => (v :: p.1, p.2)
      | ']' :: r2 => some ([v], r2)
      | _ => none

/-- `JSONObject`'s loop for a non-empty object: quoted key, `:`, value,
then `,` (and more members) or `}`.  Returns the raw pair list; the caller
builds the dict. -/
def parseMembers : Nat → List Char → Option (JObj × List Char)
  | 0, _ => none
  | fuel + 1, cs =>
    match cs with
    | '"' :: r1 =>
      match scanString (r1.length + 1) r1 with
      | none => none
      | some (k, r2) =>
        match skipWs r2 with
        | ':' :: r3 =>
          match parseVal fuel (skipWs r3) with
          | none => none
          | some (v, r4) =>
            match skipWs r4 with
            | ',' :: r5 =>
              match skipWs r5 with
              | '"' :: _ => (parseMembers fuel (skipWs r5)).map fun p => ((k, v) :: p.1, p.2)
              | _ => none
            | '}' :: r5 => some ([(k, v)], r5)
            | _ => none
        | _ => none
    | _ => none

end

/-- `json.loads(text)`: skip leading whitespace, scan one value, skip
trailing whitespace, and reject any extra data. -/
def json_loads (cs : List Char) : Option Json :=
  match parseVal (cs.length + 1) (skipWs cs) with
  | some (v, rest) => if skipWs rest = [] then some v else none
  | none => none

/-! ## UTF-8 and the native-messaging framing (`native_messaging.py`)

Bytes are modelled as natural numbers below 256; a byte stream is a
`List Nat`.  `utf8Encode` models `str.encode("utf-8")` and `utf8Decode`
models `bytes.decode("utf-8")` (strict: stray continuation bytes, overlong
forms, surrogates and values above `0x10FFFF` all fail). -/

/-- UTF-8 bytes of one character (`str.encode("utf-8")`). -/
def utf8EncodeChar (c : Char) : List Nat :=
  let n := c.toNat
  if n < 0x80 then [n]
  else if n < 0x800 then [0xC0 + n / 64, 0x80 + n % 64]
  else if n < 0x10000 then [0xE0 + n / 4096, 0x80 + n / 64 % 64, 0x80 + n % 64]
  else [0xF0 + n / 262144, 0x80 + n / 4096 % 64, 0x80 + n / 64 % 64, 0x80 + n % 64]

/-- UTF-8 bytes of a string. -/
def utf8Encode (cs : List Char) : List Nat := (cs.map utf8EncodeChar).flatten

/-- Is `b` a UTF-8 continuation byte `10xxxxxx`? -/
def isCont (b : Nat) : Bool := 0x80 ≤ b && b < 0xC0

/-- Decode a two-byte sequence (leading byte `0xC2..0xDF`). -/
def utf8Decode2 (b b2 : Nat) : Option Nat :=
  if isCont b2 then some ((b - 0xC0) * 64 + (b2 - 0x80)) else none

/-- Decode a three-byte sequence: rejects overlong forms and surrogates. -/
def utf8Decode3 (b b2 b3 : Nat) : Option Nat :=
  if isCont b2 && isCont b3 then
    let n := (b - 0xE0) * 4096 + (b2 - 0x80) * 64 + (b3 - 0x80)
    if n < 0x800 || (0xD800 ≤ n && n < 0xE000) then none else some n
  else none

/-- Decode a four-byte sequence: rejects overlong forms and values above
`0x10FFFF`. -/
def utf8Decode4 (b b2 b3 b4 : Nat) : Option Nat :=
  if isCont b2 && isCont b3 && isCont b4 then
    let n := (b - 0xF0) * 262144 + (b2 - 0x80) * 4096 + (b3 - 0x80) * 64 + (b4 - 0x80)
    if n < 0x10000 || 0x10FFFF < n then none else some n
  else none

/-- Decode one UTF-8 scalar from the head of the byte list, returning it
with the remaining bytes; `none` on any invalid sequence. -/
def utf8DecodeOne (bs : List Nat) : Option (Nat × List Nat) :=
  match bs with
  | [] => none
  | b :: rest =>
    if b < 0x80 then some (b, rest)
    else if b < 0xC2 then none
    else if b < 0xE0 then
      match rest with
      | b2 :: rest2 => (utf8Decode2 b b2).map fun n => (n, rest2)
      | [] => none
    else if b < 0xF0 then
      match rest with
      | b2 :: b3 :: rest2 => (utf8Decode3 b b2 b3).map fun n => (n, rest2)
      | _ => none
    else if b < 0xF5 then
      match rest with
      | b2 :: b3 :: b4 :: rest2 => (utf8Decode4 b b2 b3 b4).map fun n => (n, rest2)
      | _ => none
    else none

/-- Decoding loop; one unit of fuel per decoded character, so the byte
count always suffices. -/
def utf8DecodeLoop : Nat → List Nat → Option (List Char)
  | _, [] => some []
  | 0, _ :: _ => none
  | fuel + 1, b :: rest =>
    match utf8DecodeOne (b :: rest) with
    | none => none
    | some (n, rest2) => (utf8DecodeLoop fuel rest2).map (Char.ofNat n :: ·)

/-- Strict UTF-8 decoding (`bytes.decode("utf-8")`): rejects stray
continuation bytes, overlong encodings, surrogates, and values above
`0x10FFFF`; `UnicodeDecodeError` becomes `none`. -/
def utf8Decode (bs : List Nat) : Option (List Char) := utf8DecodeLoop bs.length bs

/-- `MAX_MESSAGE_SIZE = 1024 * 1024`, Firefox's native-messaging limit. -/
def MAX_MESSAGE_SIZE : Nat := 1024 * 1024

/-- `struct.pack("<I", n)`: four little-endian bytes. -/
def packLE32 (n : Nat) : List Nat :=
  [n % 256, n / 256 % 256, n / 65536 % 256, n / 16777216 % 256]

/-- The integer under `struct.unpack("<I", bytes4)`. -/
def unpackLE32 (a b c d : Nat) : Nat :=
  a + 256 * b + 65536 * c + 16777216 * d

/-- `encode_message`: serialize compactly, UTF-8-encode, reject payloads
over `MAX_MESSAGE_SIZE` (`MessageTooLargeError`, modelled as `none`), then
concatenate the 4-byte little-endian length and the payload. -/
def encode_message (m : JObj) : Option (List Nat) :=
  let payload := utf8Encode (Json.ser (.obj m))
  if payload.length > MAX_MESSAGE_SIZE then none
  else some (packLE32 payload.length ++ payload)

/-- `decode_length_prefix` of `native_messaging.py`: exactly four bytes
are required (`InvalidMessageError`, modelled as `none`, otherwise), then
`struct.unpack("<I", data)`. -/
def decode_length_header (bs : List Nat) : Option Nat :=
  match bs with
  | [a, b, c, d] => some (unpackLE32 a b c d)
  | _ => none

/-- `decode_payload`: UTF-8-decode, `json.loads`, and reject any top-level
value that is not an object; every failure raises `InvalidMessageError`,
modelled as `none`. -/
def decode_payload (bs : List Nat) : Option JObj :=
  match utf8Decode bs with
  | none => none
  | some cs =>
    match json_loads cs with
    | some (.obj kvs) => some kvs
    | _ => none

/-- Outcome of one synchronous framed read from stdin
(`_read_stdin_sync`): `eof` models returning `None`, `payload` a
successful read of the payload bytes, and the two error constructors the
`MessageTooLargeError` / `InvalidMessageError` exceptions. -/
inductive ReadOutcome where
  | eof : ReadOutcome
  | payload (bs : List Nat) : ReadOutcome
  | tooLarge : ReadOutcome
  | invalid : ReadOutcome
  deriving Repr, DecidableEq

/-- `_read_stdin_sync`, with the stream modelled as the full byte sequence
remaining on stdin (so `stream.read(n)` yields `take n` / leaves
`drop n`): read up to 4 length bytes — fewer than 4 means `None`; decode
the little-endian length, reject lengths over the cap; then read the
payload and require it complete. -/
def read_stdin_sync (input : List Nat) : ReadOutcome :=
  let length_bytes := input.take 4
  if length_bytes = [] ∨ length_bytes.length < 4 then .eof
  else
    match decode_length_header length_bytes with
    | none => .invalid
    | some len =>
      if len > MAX_MESSAGE_SIZE then .tooLarge
      else
        let payload := (input.drop 4).take len
        if payload.length < len then .invalid else .payload payload

/-! ## Process Runner (`installer/runner.py`) -/

/-- `ProcessState` of `runner.py`. -/
inductive ProcessState where
  | starting : ProcessState
  | running : ProcessState
  | stopping : ProcessState
  | stopped : ProcessState
  | crashed : ProcessState
  | error : ProcessState
  deriving Repr, DecidableEq

/-- A `ServerProcess` record.  Times are model timestamps (`Nat`), the
live `asyncio` process handle `_process` is abstracted to whether it is
set (`hasHandle`), and the free-form error text to whether one is set. -/
structure ServerProcess where
  server_id : String
  package_type : String
  package_id : String
  state : ProcessState := .stopped
  pid : Option Nat := none
  started_at : Option Nat := none
  stopped_at : Option Nat := none
  exit_code : Option Int := none
  error_message : Option String := none
  hasHandle : Bool := false
  deriving Repr, DecidableEq

/-- The runner's `_processes` table, keyed by server id. -/
abbrev ProcTable := List (String × ServerProcess)

/-- Association-list lookup, Python `dict.get`. -/
def tblGet (t : ProcTable) (id : String) : Option ServerProcess :=
  match t with
  | [] => none
  | (k, v) :: rest => if k = id then some v else tblGet rest id

/-- Association-list store, Python `dict.__setitem__` (updates in place,
appends if absent). -/
def tblSet (t : ProcTable) (id : String) (p : ServerProcess) : ProcTable :=
  match t with
  | [] => [(id, p)]
  | (k, v) :: rest => if k = id then (k, p) :: rest else (k, v) :: tblSet rest id p

/-- What `start_server` decides to do, up to the point where it would
touch the operating system: return an existing running record unchanged,
or insert a fresh `starting` record and go on to resolve a launch command
and spawn (`spawn`). -/
inductive StartAction where
  | returnExisting (p : ServerProcess) : StartAction
  | spawn (fresh : ServerProcess) : StartAction
  deriving Repr, DecidableEq

/-- The entry of `PackageRunner.start_server` (runner.py lines 108-121):
an existing record in state `running` is returned as is, with the table
untouched and nothing spawned; otherwise a fresh record in state
`starting` replaces any stale one and the spawn path follows. -/
def start_server_entry (procs : ProcTable) (server_id package_type package_id : String) :
    StartAction × ProcTable :=
  match tblGet procs server_id with
  | some existing =>
    if existing.state = .running then (.returnExisting existing, procs)
    else
      let fresh : ServerProcess :=
        { server_id := server_id, package_type := package_type, package_id := package_id,
          state := .starting }
      (.spawn fresh, tblSet procs server_id fresh)
  | none =>
    let fresh : ServerProcess :=
      { server_id := server_id, package_type := package_type, package_id := package_id,
        state := .starting }
    (.spawn fresh, tblSet procs server_id fresh)

/-- What `stop_server` decides at its entry: return `False` (no record, or
a record without a live process handle), return `True` as a no-op (record
not in `running`/`starting`), or proceed to terminate the process. -/
inductive StopAction where
  | returnFalse : StopAction
  | returnTrueNoop : StopAction
  | terminate : StopAction
  deriving Repr, DecidableEq

/-- The entry of `PackageRunner.stop_server` (runner.py lines 169-183):
`if not proc or not proc._process: return False`; then
`if proc.state not in (RUNNING, STARTING): return True`; otherwise the
record moves to `stopping` and the process is terminated (the graceful
wait / force-kill sequence is operating-system interaction, abstracted
into the `terminate` action). -/
def stop_server_entry (procs : ProcTable) (server_id : String) : StopAction :=
  match tblGet procs server_id with
  | none => .returnFalse
  | some p =>
    if ¬ p.hasHandle then .returnFalse
    else if p.state ≠ .running ∧ p.state ≠ .starting then .returnTrueNoop
    else .terminate

/-- The state update of `_monitor_process` once `process.wait()` returns
(runner.py lines 325-345): record the exit code and stop time, then
finalize the state — `stopping` becomes `stopped`; otherwise a non-zero
exit code becomes `crashed` with an error message, a zero exit code
`stopped`. -/
def monitor_on_exit (p : ServerProcess) (returncode : Int) (now : Nat) : ServerProcess :=
  let p1 := { p with exit_code := some returncode, stopped_at := some now }
  if p1.state = .stopping then { p1 with state := .stopped }
  else if returncode ≠ 0 then
    { p1 with state := .crashed, error_message := some "Process exited with code" }
  else { p1 with state := .stopped }

/-! ## Secret Store and Installed Server Manager
(`installer/secrets.py`, `installer/manager.py`) -/

/-- One required environment variable declaration from the registry
(`{"name": ..., "isSecret": ...}`); a declaration whose `name` key is
absent reads as the empty string (`env_var.get("name", "")`), and
`isSecret` is Python truthiness of `env_var.get("isSecret")`. -/
structure EnvVarDecl where
  name : String
  isSecret : Bool
  deriving Repr, DecidableEq

/-- Stored secrets of one server: key/value pairs. -/
abbrev SecretMap := List (String × String)

/-- The secret store's `_secrets` mapping, server id → key/value map. -/
abbrev SecretsState := List (String × SecretMap)

/-- Keys of a secret map. -/
def secretKeys (m : SecretMap) : List String := m.map Prod.fst

/-- `self._secrets.get(server_id, {})`. -/
def secretsFor (st : SecretsState) (server_id : String) : SecretMap :=
  match st with
  | [] => []
  | (k, m) :: rest => if k = server_id then m else secretsFor rest server_id

/-- `SecretStore.get_missing_secrets` (secrets.py lines 99-124): filter
the declarations to those flagged secret, keep those with a non-empty name
that is not among the stored keys. -/
def get_missing_secrets (st : SecretsState) (server_id : String)
    (required : List EnvVarDecl) : List EnvVarDecl :=
  required.filter fun v =>
    v.isSecret && v.name ≠ "" && ¬ (secretKeys (secretsFor st server_id)).contains v.name

/-- An `InstalledServer` config (manager.py), restricted to the fields
`start` reads. -/
structure InstalledServer where
  id : String
  name : String
  package_type : String
  package_id : String
  args : List String := []
  required_env_vars : List EnvVarDecl := []
  deriving Repr, DecidableEq

/-- The manager's `_servers` mapping. -/
abbrev InstalledState := List (String × InstalledServer)

/-- `self._servers.get(server_id)`. -/
def installedGet (st : InstalledState) (server_id : String) : Option InstalledServer :=
  match st with
  | [] => none
  | (k, v) :: rest => if k = server_id then some v else installedGet rest server_id

/-- What `InstalledServerManager.start` does, stopping at the boundary to
the Process Runner: raise for an unknown id, raise listing the missing
secret names before touching the runner, or delegate to
`runner.start_server` with the stored secrets as the extra environment. -/
inductive ManagerStartOutcome where
  | notInstalled : ManagerStartOutcome
  | missingSecretsError (names : List String) : ManagerStartOutcome
  | delegate (server_id package_type package_id : String)
      (env_vars : SecretMap) (args : Option (List String)) : ManagerStartOutcome
  deriving Repr, DecidableEq

/-- `InstalledServerManager.start` (manager.py lines 210-235): look up the
config, compute the missing secrets, fail fast with their names if any,
else pass the stored secrets and the config's package identity to the
runner (`args or None`). -/
def manager_start (servers : InstalledState) (secrets : SecretsState)
    (server_id : String) : ManagerStartOutcome :=
  match installedGet servers server_id with
  | none => .notInstalled
  | some server =>
    let missing := get_missing_secrets secrets server_id server.required_env_vars
    if missing ≠ [] then .missingSecretsError (missing.map (·.name))
    else
      .delegate server_id server.package_type server.package_id
        (secretsFor secrets server_id)
        (if server.args = [] then none else some server.args)

/-- Python `dict.__setitem__` on a string map: update an existing key in
place, append a new one. -/
def envSet (m : SecretMap) (k v : String) : SecretMap :=
  match m with
  | [] => [(k, v)]
  | (k0, v0) :: rest => if k0 = k then (k0, v) :: rest else (k0, v0) :: envSet rest k v

/-- The merged environment the runner builds before spawning
(runner.py lines 131-134): the inherited process environment overlaid by
the caller's `env_vars` (`env = os.environ.copy(); env.update(env_vars)`). -/
def mergedEnv (base : SecretMap) (env_vars : SecretMap) : SecretMap :=
  env_vars.foldl (fun e kv => envSet e kv.1 kv.2) base

/-! ## Connection Store (`server_store.py`) -/

/-- `ServerStatus` of `server_store.py`. -/
inductive ServerStatus where
  | disconnected : ServerStatus
  | connecting : ServerStatus
  | connected : ServerStatus
  | error : ServerStatus
  deriving Repr, DecidableEq

/-- An `MCPServer` connection record. -/
structure MCPServer where
  server_id : String
  label : String
  base_url : String
  status : ServerStatus := .disconnected
  error_message : Option String := none
  deriving Repr, DecidableEq

/-- The store's `servers` mapping, server id → record. -/
abbrev ServerMap := List (String × MCPServer)

/-- Python `dict.get` on the server map. -/
def srvGet (m : ServerMap) (id : String) : Option MCPServer :=
  match m with
  | [] => none
  | (k, v) :: rest => if k = id then some v else srvGet rest id

/-- `ServerStore.load` (server_store.py lines 77-98): `_read` yields the
parsed records (or `{}` when the file is missing or undecodable, modelled
by `none`), then every record's `status` is reset to `disconnected` and
its `error_message` cleared. -/
def store_load (disk : Option ServerMap) : ServerMap :=
  let read := match disk with
    | none => []
    | some m => m
  read.map fun kv =>
    (kv.1, { kv.2 with status := .disconnected, error_message := none })

/-- `ServerStore.update_status` (server_store.py lines 139-152) on a
loaded store: mutate the record in place if present (never persisting),
return it; an unknown id returns `None` and touches nothing. -/
def store_update_status (servers : ServerMap) (server_id : String)
    (status : ServerStatus) (error_message : Option String) :
    Option MCPServer × ServerMap :=
  match srvGet servers server_id with
  | none => (none, servers)
  | some s =>
    let s1 := { s with status := status, error_message := error_message }
    (some s1, servers.map fun kv => if kv.1 = server_id then (kv.1, s1) else kv)

/-! ## Persistence as file-operation traces

The three `_save` routines are I/O; their effect is modelled as the exact
sequence of file-system operations each performs.  A JSON document written
whole is carried as a `Json` value (the texts differ only by
pretty-printing, which is irrelevant to write atomicity). -/

/-- One file-system operation. -/
inductive FsOp where
  | mkdirAll (path : String) : FsOp
  | writeWhole (path : String) (doc : Json) : FsOp
  | rename (src dst : String) : FsOp
  | chmod (path : String) (mode : Nat) : FsOp
  deriving Repr

/-- `MCPServer.to_dict`. -/
def MCPServer.toJson (s : MCPServer) : Json :=
  .obj [("server_id".toList, .str s.server_id.toList),
        ("label".toList, .str s.label.toList),
        ("base_url".toList, .str s.base_url.toList),
        ("status".toList, .str (match s.status with
          | .disconnected => "disconnected".toList
          | .connecting => "connecting".toList
          | .connected => "connected".toList
          | .error => "error".toList)),
        ("error_message".toList, match s.error_message with
          | none => .null
          | some m => .str m.toList)]

/-- The document `ServerStore.save` writes. -/
def serversDoc (servers : ServerMap) : Json :=
  .obj [("servers".toList, .obj (servers.map fun kv => (kv.1.toList, kv.2.toJson)))]

/-- `ServerStore.save` (server_store.py lines 100-109): create the data
directory, then open `servers.json` for writing and dump the whole
document into it — directly at the target path. -/
def store_save_trace (data_dir : String) (servers : ServerMap) : List FsOp :=
  [.mkdirAll data_dir,
   .writeWhole (data_dir ++ "/servers.json") (serversDoc servers)]

/-- The document `InstalledServerManager._save` writes (a version tag and
the config list; config serialization is abstracted to the id). -/
def installedDoc (servers : InstalledState) : Json :=
  .obj [("version".toList, .int 1),
        ("servers".toList, .arr (servers.map fun kv => .str kv.1.toList))]

/-- `InstalledServerManager._save` (manager.py lines 117-127): open
`~/.harbor/installed_servers.json` for writing and dump the whole
document — directly at the target path. -/
def manager_save_trace (home : String) (servers : InstalledState) : List FsOp :=
  [.writeWhole (home ++ "/.harbor/installed_servers.json") (installedDoc servers)]

/-- The document `SecretStore._save` writes. -/
def secretsDoc (st : SecretsState) : Json :=
  .obj (st.map fun kv =>
    (kv.1.toList, .obj (kv.2.map fun e => (e.1.toList, .str e.2.toList))))

/-- `SecretStore._save` (secrets.py lines 51-59): open
`~/.harbor/secrets/credentials.json` for writing, dump the whole document
— directly at the target path — then restrict its permissions. -/
def secrets_save_trace (home : String) (st : SecretsState) : List FsOp :=
  [.writeWhole (home ++ "/.harbor/secrets/credentials.json") (secretsDoc st),
   .chmod (home ++ "/.harbor/secrets/credentials.json") 0o600]

/-- The spec's notion of an atomic replacement of `target`, stated over a
trace: the full content goes to some temporary path distinct from the
target, which is then renamed over the target; the target path itself is
never opened for writing. -/
def AtomicReplace (trace : List FsOp) (target : String) : Prop :=
  (∀ doc, FsOp.writeWhole target doc ∉ trace) ∧
  ∃ tmp doc, tmp ≠ target ∧ FsOp.writeWhole tmp doc ∈ trace ∧ FsOp.rename tmp target ∈ trace

/-! ## Dispatch Router (`handlers.py`) -/

/-- Python truthiness of a JSON value (`if not message_type`): `None`,
`False`, zero, and empty strings/arrays/objects are falsy. -/
def pyFalsy : Json → Bool
  | .null => true
  | .bool b => !b
  | .int n => n = 0
  | .str s => s.isEmpty
  | .arr xs => xs.isEmpty
  | .obj kvs => kvs.isEmpty

/-- `message.get(key)` on the modelled message dictionary. -/
def msgGet (msg : JObj) (key : List Char) : Option Json :=
  match msg with
  | [] => none
  | (k, v) :: rest => if k = key then some v else msgGet rest key

/-- `message.get("request_id", "")`. -/
def msgRequestId (msg : JObj) : Json :=
  match msgGet msg ['r', 'e', 'q', 'u', 'e', 's', 't', '_', 'i', 'd'] with
  | none => .str []
  | some v => v

/-- The keys of the `HANDLERS` registry in `handlers.py`. -/
def handlerKeys : List (List Char) :=
  ["hello".toList, "add_server".toList, "remove_server".toList,
   "list_servers".toList, "connect_server".toList, "disconnect_server".toList,
   "list_tools".toList, "list_resources".toList, "list_prompts".toList,
   "call_tool".toList, "catalog_get".toList, "catalog_refresh".toList,
   "catalog_search".toList, "check_runtimes".toList, "install_server".toList,
   "uninstall_server".toList, "list_installed".toList, "start_installed".toList,
   "stop_installed".toList, "set_server_secrets".toList,
   "get_server_status".toList]

/-- `make_error_response(request_id, code, message)` without `details`:
`{"type": "error", "request_id": ..., "error": {"code": ..., "message": ...}}`.
The human-readable message text is irrelevant to the claims and omitted
from the `error` object model's payload. -/
def make_error_response (request_id : Json) (code : List Char) : Json :=
  .obj [("type".toList, .str "error".toList),
        ("request_id".toList, request_id),
        ("error".toList, .obj [("code".toList, .str code)])]

/-- What `dispatch_message` (handlers.py lines 686-707) does with one
message: produce an error response itself, hand the message to the
registered handler for its `type`, or raise (a `TypeError` escapes when
`HANDLERS.get` is given an unhashable key). -/
inductive DispatchOutcome where
  | response (r : Json) : DispatchOutcome
  | callHandler (t : List Char) : DispatchOutcome
  | raiseTypeError : DispatchOutcome

/-- `dispatch_message`: a falsy (or absent) `type` yields an
`invalid_message` error; an unregistered type an `unknown_message_type`
error; otherwise the registered handler runs.  A hashable non-string
truthy `type` (a number, `True`) can never equal a registry key, so
`HANDLERS.get` yields `None` and the `unknown_message_type` branch runs;
an unhashable one (a non-empty array or object) makes `HANDLERS.get`
raise `TypeError`. -/
def dispatch_message (msg : JObj) : DispatchOutcome :=
  let message_type := msgGet msg ['t', 'y', 'p', 'e']
  let request_id := msgRequestId msg
  let falsy := match message_type with
    | none => true
    | some t => pyFalsy t
  if falsy then
    .response (make_error_response request_id "invalid_message".toList)
  else
    match message_type with
    | some (.str t) =>
      if handlerKeys.contains t then .callHandler t
      else .response (make_error_response request_id "unknown_message_type".toList)
    | some (.arr _) => .raiseTypeError
    | some (.obj _) => .raiseTypeError
    | _ => .response (make_error_response request_id "unknown_message_type".toList)

/-- Remove a key from a message dictionary (`del message[key]`), used to
compare dispatch on a falsy `type` with dispatch on an absent one. -/
def msgErase (msg : JObj) (key : List Char) : JObj :=
  msg.filter fun kv => ¬ kv.1 = key

/-! ## Well-formed JSON values and parser fuel -/

/-- No-duplicate check on object keys.  A Python `dict` can never hold two
equal keys, so every value `json.dumps` is given satisfies this. -/
def keysNodup : List (List Char) → Bool
  | [] => true
  | k :: ks => !ks.contains k && keysNodup ks

mutual

/-- A JSON value that a Python object can denote: every object node has
pairwise-distinct keys. -/
def Json.wf : Json → Bool
  | .null => true
  | .bool _ => true
  | .int _ => true
  | .str _ => true
  | .arr xs => itemsWf xs
  | .obj kvs => keysNodup (kvs.map Prod.fst) && membersWf kvs

/-- All array elements well-formed. -/
def itemsWf : List Json → Bool
  | [] => true
  | v :: vs => v.wf && itemsWf vs

/-- All object member values well-formed. -/
def membersWf : JObj → Bool
  | [] => true
  | (_, v) :: kvs => v.wf && membersWf kvs

end

mutual

/-- Fuel sufficient for `parseVal` to scan this value. -/
def jfuel : Json → Nat
  | .null => 1
  | .bool _ => 1
  | .int _ => 1
  | .str _ => 1
  | .arr xs => 1 + itemsFuel xs
  | .obj kvs => 1 + membersFuel kvs

/-- Fuel sufficient for `parseItems` on this item list. -/
def itemsFuel : List Json → Nat
  | [] => 0
  | v :: vs => 1 + jfuel v + itemsFuel vs

/-- Fuel sufficient for `parseMembers` on this member list. -/
def membersFuel : JObj → Nat
  | [] => 0
  | (_, v) :: kvs => 1 + jfuel v + membersFuel kvs

end

/-- The characters that may legally follow a serialized value inside a
larger serialized document: nothing (end of input), or a separator
`,` / `]` / `}`.  Needed because the number scanner is greedy. -/
def SepBoundary (rest : List Char) : Prop :=
  rest = [] ∨ ∃ r, rest = ',' :: r ∨ rest = ']' :: r ∨ rest = '}' :: r

/-- First characters a serialized JSON value can start with. -/
def serHeadOk (c : Char) : Bool :=
  c = '"' || c = '{' || c = '[' || c = 'n' || c = 't' || c = 'f' || c = '-' || isDigitC c

/-- The next character (if any) does not extend a digit run. -/
def headNotDigit : List Char → Prop
  | [] => True
  | c :: _ => isDigitC c = false

/-! ## Basic character facts -/

theorem char_le_iff_toNat {a b : Char} : a ≤ b ↔ a.toNat ≤ b.toNat := Iff.rfl

theorem char_eq_of_toNat {a b : Char} (h : a.toNat = b.toNat) : a = b :=
  Char.eq_of_val_eq (UInt32.toNat.inj h)

theorem toNat_ofNat_valid {n : Nat} (h : n.isValidChar) : (Char.ofNat n).toNat = n := by
  simp [Char.ofNat, h]
  exact rfl

theorem isDigitC_iff {c : Char} : isDigitC c = true ↔ 48 ≤ c.toNat ∧ c.toNat ≤ 57 := by
  simp [isDigitC, char_le_iff_toNat]

/-! ## Hexadecimal and decimal digit lemmas -/

theorem hexVal_hexDigitChar (d : Nat) (h : d < 16) : hexVal (hexDigitChar d) = some d := by
  interval_cases d <;> decide

theorem parseHex4_hex4 (n : Nat) (h : n < 65536) (rest : List Char) :
    parseHex4 (hex4 n ++ rest) = some (n, rest) := by
  have h1 : n / 4096 % 16 < 16 := Nat.mod_lt _ (by norm_num)
  have h2 : n / 256 % 16 < 16 := Nat.mod_lt _ (by norm_num)
  have h3 : n / 16 % 16 < 16 := Nat.mod_lt _ (by norm_num)
  have h4 : n % 16 < 16 := Nat.mod_lt _ (by norm_num)
  simp [hex4, parseHex4, hexVal_hexDigitChar _ h1, hexVal_hexDigitChar _ h2,
    hexVal_hexDigitChar _ h3, hexVal_hexDigitChar _ h4]
  omega

theorem toNat_digitChar (k : Nat) (h : k < 10) : (Char.ofNat (48 + k)).toNat = 48 + k := by
  interval_cases k <;> decide

theorem isDigitC_digitChar (k : Nat) (h : k < 10) : isDigitC (Char.ofNat (48 + k)) = true := by
  interval_cases k <;> decide

theorem digitChar_ne_zero (k : Nat) (h : k < 10) (hk : k ≠ 0) : Char.ofNat (48 + k) ≠ '0' := by
  interval_cases k
  · exact absurd rfl hk
  all_goals decide

theorem natDigitsF_congr (f1 : Nat) : ∀ f2 n, n < f1 → n < f2 →
    natDigitsF f1 n = natDigitsF f2 n := by
  induction f1 with
  | zero => omega
  | succ a ih =>
    intro f2 n h1 h2
    cases f2 with
    | zero => omega
    | succ b =>
      simp only [natDigitsF]
      split
      · rfl
      · rw [ih b (n / 10) (by omega) (by omega)]

theorem natDigits_unfold (n : Nat) :
    natDigits n = if n < 10 then [Char.ofNat (48 + n)]
      else natDigits (n / 10) ++ [Char.ofNat (48 + n % 10)] := by
  show natDigitsF (n + 1) n = _
  rw [natDigitsF]
  split
  · rfl
  · rw [natDigitsF_congr n (n / 10 + 1) (n / 10) (by omega) (by omega)]
    rfl

theorem natDigits_ne_nil (n : Nat) : natDigits n ≠ [] := by
  rw [natDigits_unfold]
  split <;> simp

theorem natDigits_all_digits (n : Nat) : ∀ c ∈ natDigits n, isDigitC c = true := by
  rw [natDigits_unfold]
  split
  · intro c hc
    simp only [List.mem_singleton] at hc
    subst hc
    exact isDigitC_digitChar n (by omega)
  · intro c hc
    rcases List.mem_append.mp hc with h | h
    · exact natDigits_all_digits (n / 10) c h
    · simp only [List.mem_singleton] at h
      subst h
      exact isDigitC_digitChar (n % 10) (Nat.mod_lt _ (by omega))
termination_by n
decreasing_by exact Nat.div_lt_self (by omega) (by omega)

theorem natDigits_head_ne_zero (n : Nat) (hn : 0 < n) :
    ∀ d ds, natDigits n = d :: ds → d ≠ '0' := by
  rw [natDigits_unfold]
  split
  · intro d ds h2
    simp only [List.cons.injEq] at h2
    rw [← h2.1]
    exact digitChar_ne_zero n (by omega) (by omega)
  · intro d ds h2
    rcases h3 : natDigits (n / 10) with _ | ⟨d0, ds0⟩
    · exact absurd h3 (natDigits_ne_nil _)
    · rw [h3] at h2
      simp only [List.cons_append, List.cons.injEq] at h2
      rw [← h2.1]
      exact natDigits_head_ne_zero (n / 10) (by
        have : 10 ≤ n := by omega
        omega) d0 ds0 h3
termination_by n
decreasing_by exact Nat.div_lt_self (by omega) (by omega)

theorem digitsVal_natDigits (n : Nat) : digitsVal (natDigits n) = n := by
  rw [natDigits_unfold]
  split
  · simp [digitsVal, toNat_digitChar n (by omega)]
  · have ih := digitsVal_natDigits (n / 10)
    have hm : (Char.ofNat (48 + n % 10)).toNat = 48 + n % 10 :=
      toNat_digitChar (n % 10) (Nat.mod_lt _ (by omega))
    simp only [digitsVal, List.foldl_append] at *
    simp [ih, hm]
    omega
termination_by n
decreasing_by exact Nat.div_lt_self (by omega) (by omega)

theorem takeDigits_of_digits (ds rest : List Char) (hds : ∀ c ∈ ds, isDigitC c = true)
    (hrest : headNotDigit rest) : takeDigits (ds ++ rest) = (ds, rest) := by
  induction ds with
  | nil =>
    cases rest with
    | nil => rfl
    | cons c r =>
      simp only [headNotDigit] at hrest
      simp [takeDigits, hrest]
  | cons c ds ih =>
    have hc : isDigitC c = true := hds c (by simp)
    have ih2 := ih (fun x hx => hds x (by simp [hx]))
    simp [takeDigits, hc, ih2]

/-! ## Number round trip -/

theorem isDigitC_ne {c : Char} (h : isDigitC c = true) {x : Char}
    (hx : ¬ (48 ≤ x.toNat ∧ x.toNat ≤ 57)) : c ≠ x := by
  intro e
  subst e
  exact hx (isDigitC_iff.mp h)

theorem sepBoundary_headNotDigit (rest : List Char) (h : SepBoundary rest) :
    headNotDigit rest := by
  rcases h with rfl | ⟨r, rfl | rfl | rfl⟩
  · trivial
  all_goals simp only [headNotDigit]
  all_goals decide

theorem sepBoundary_no_frac (rest : List Char) (h : SepBoundary rest) :
    startsFrac rest = false ∧ startsExp rest = false := by
  rcases h with rfl | ⟨r, rfl | rfl | rfl⟩ <;> exact ⟨rfl, rfl⟩

theorem parseIntPart_natDigits (m : Nat) (rest : List Char) (hrest : headNotDigit rest) :
    parseIntPart (natDigits m ++ rest) = some (m, rest) := by
  by_cases hm : m = 0
  · subst hm
    have h0 : natDigits 0 = ['0'] := rfl
    rw [h0]
    rfl
  · rcases h : natDigits m with _ | ⟨d, ds⟩
    · exact absurd h (natDigits_ne_nil _)
    · have hd : isDigitC d = true := by
        have := natDigits_all_digits m d
        rw [h] at this
        exact this (by simp)
      have hds : ∀ c ∈ ds, isDigitC c = true := by
        intro c hc
        have := natDigits_all_digits m c
        rw [h] at this
        exact this (by simp [hc])
      have hd0 : d ≠ '0' := natDigits_head_ne_zero m (by omega) d ds h
      have hval : digitsVal (d :: ds) = m := by
        rw [← h]
        exact digitsVal_natDigits m
      simp only [List.cons_append, parseIntPart, if_neg hd0, hd, if_true]
      rw [takeDigits_of_digits ds rest hds hrest]
      simp [hval]

theorem parseNumber_intChars (n : Int) (rest : List Char) (hsep : SepBoundary rest) :
    parseNumber (intChars n ++ rest) = some (.int n, rest) := by
  have hnd := sepBoundary_headNotDigit rest hsep
  have hfe := sepBoundary_no_frac rest hsep
  by_cases hn : n < 0
  · have hip := parseIntPart_natDigits n.natAbs rest hnd
    simp only [intChars, if_pos hn, List.cons_append]
    simp [parseNumber, hip, hfe.1, hfe.2]
    simp [abs_of_neg hn]
  · have hcast : (n.toNat : Int) = n := Int.toNat_of_nonneg (by omega)
    rcases h : natDigits n.toNat with _ | ⟨d, ds⟩
    · exact absurd h (natDigits_ne_nil _)
    · have hd : isDigitC d = true := by
        have := natDigits_all_digits n.toNat d
        rw [h] at this
        exact this (by simp)
      have hdm : d ≠ '-' := isDigitC_ne hd (by decide)
      have hip := parseIntPart_natDigits n.toNat rest hnd
      rw [h] at hip
      simp only [List.cons_append] at hip
      simp only [intChars, if_neg hn]
      rw [h]
      simp only [List.cons_append]
      simp [parseNumber, hdm, hip, hfe.1, hfe.2, hcast]

/-! ## String-escape round trip -/

theorem char_valid_toNat (c : Char) :
    c.toNat < 0xd800 ∨ (0xdfff < c.toNat ∧ c.toNat < 0x110000) := by
  have h := c.valid
  rcases h with h | ⟨h1, h2⟩
  · left
    exact h
  · right
    exact ⟨h1, h2⟩

theorem scanString_escChar (c : Char) (t : List Char) (fuel : Nat) :
    scanString (fuel + 1) (escChar c ++ t) =
      (scanString fuel t).map fun p => (c :: p.1, p.2) := by
  have hv := char_valid_toNat c
  by_cases h1 : c = '\\'
  · subst h1
    simp [escChar, scanString, escDecode]
  by_cases h2 : c = '"'
  · subst h2
    simp [escChar, scanString, escDecode]
  by_cases h3 : c = Char.ofNat 8
  · subst h3
    simp [escChar, scanString, escDecode]
  by_cases h4 : c = Char.ofNat 9
  · subst h4
    simp [escChar, scanString, escDecode]
  by_cases h5 : c = Char.ofNat 10
  · subst h5
    simp [escChar, scanString, escDecode]
  by_cases h6 : c = Char.ofNat 12
  · subst h6
    simp [escChar, scanString, escDecode]
  by_cases h7 : c = Char.ofNat 13
  · subst h7
    simp [escChar, scanString, escDecode]
  by_cases hp : 0x20 ≤ c.toNat ∧ c.toNat ≤ 0x7e
  · have hlt : ¬ c.toNat < 0x20 := by omega
    have e : escChar c = [c] := by
      unfold escChar
      rw [if_neg h1, if_neg h2, if_neg h3, if_neg h4, if_neg h5, if_neg h6, if_neg h7,
        if_pos hp]
    rw [e]
    simp [scanString, h1, h2, hlt]
  by_cases hb : c.toNat < 0x10000
  · have e : escChar c = '\\' :: 'u' :: hex4 c.toNat := by
      unfold escChar
      rw [if_neg h1, if_neg h2, if_neg h3, if_neg h4, if_neg h5, if_neg h6, if_neg h7,
        if_neg hp, if_pos hb]
    rw [e]
    have hx := parseHex4_hex4 c.toNat (by omega) t
    have hs : ¬ (0xD800 ≤ c.toNat ∧ c.toNat ≤ 0xDBFF) := by
      rcases hv with h | ⟨ha, _⟩ <;> omega
    simp [scanString, hx, hs, Char.ofNat_toNat]
  · have h100 : c.toNat < 0x110000 := by
      rcases hv with h | ⟨_, h⟩ <;> omega
    have e : escChar c = '\\' :: 'u' :: hex4 (0xD800 + (c.toNat - 0x10000) / 0x400) ++
        '\\' :: 'u' :: hex4 (0xDC00 + (c.toNat - 0x10000) % 0x400) := by
      unfold escChar
      rw [if_neg h1, if_neg h2, if_neg h3, if_neg h4, if_neg h5, if_neg h6, if_neg h7,
        if_neg hp, if_neg hb]
    rw [e]
    simp only [List.cons_append, List.append_assoc]
    have hx1 := parseHex4_hex4 (0xD800 + (c.toNat - 0x10000) / 0x400) (by omega)
      ('\\' :: 'u' :: (hex4 (0xDC00 + (c.toNat - 0x10000) % 0x400) ++ t))
    have hx2 := parseHex4_hex4 (0xDC00 + (c.toNat - 0x10000) % 0x400) (by omega) t
    have c1 : (0xD800 ≤ 0xD800 + (c.toNat - 0x10000) / 0x400 ∧
        0xD800 + (c.toNat - 0x10000) / 0x400 ≤ 0xDBFF) = True := by
      simp
      omega
    have c2 : (0xDC00 ≤ 0xDC00 + (c.toNat - 0x10000) % 0x400 ∧
        0xDC00 + (c.toNat - 0x10000) % 0x400 ≤ 0xDFFF) = True := by
      simp
      omega
    rw [scanString]
    simp only [reduceIte, reduceCtorEq]
    rw [hx1]
    simp only [c1, if_true]
    rw [hx2]
    simp only [c2, if_true]
    have harg2 : 0x10000 + (0xD800 + (c.toNat - 0x10000) / 0x400 - 0xD800) * 0x400 +
        (0xDC00 + (c.toNat - 0x10000) % 0x400 - 0xDC00) = c.toNat := by omega
    rw [harg2, Char.ofNat_toNat]
    rw [if_neg (by decide : ¬ ('\\' : Char) = '"')]

theorem escChar_length_pos (c : Char) : 1 ≤ (escChar c).length := by
  unfold escChar
  repeat' split
  all_goals simp

theorem scanString_escBody (s : List Char) (rest : List Char) :
    ∀ fuel, s.length < fuel →
      scanString fuel ((s.map escChar).flatten ++ '"' :: rest) = some (s, rest) := by
  induction s with
  | nil =>
    intro fuel hf
    cases fuel with
    | zero => omega
    | succ f => simp [scanString]
  | cons c s ih =>
    intro fuel hf
    cases fuel with
    | zero => omega
    | succ f =>
      simp only [List.map_cons, List.flatten_cons, List.append_assoc]
      rw [scanString_escChar c _ f]
      rw [ih f (by simp at hf; omega)]
      rfl

/-! ## Serializer shape facts -/

theorem ser_head (v : Json) : ∃ c r, Json.ser v = c :: r ∧ serHeadOk c = true := by
  cases v with
  | null => exact ⟨'n', _, rfl, by decide⟩
  | bool b =>
    cases b
    · exact ⟨'f', _, rfl, by decide⟩
    · exact ⟨'t', _, rfl, by decide⟩
  | int n =>
    show ∃ c r, intChars n = c :: r ∧ serHeadOk c = true
    unfold intChars
    split
    · exact ⟨'-', _, rfl, by decide⟩
    · rcases h : natDigits n.toNat with _ | ⟨d, ds⟩
      · exact absurd h (natDigits_ne_nil _)
      · refine ⟨d, ds, rfl, ?_⟩
        have hd : isDigitC d = true := by
          have := natDigits_all_digits n.toNat d
          rw [h] at this
          exact this (by simp)
        simp [serHeadOk, hd]
  | str s => exact ⟨'"', _, rfl, by decide⟩
  | arr xs => exact ⟨'[', _, rfl, by decide⟩
  | obj kvs => exact ⟨'{', _, rfl, by decide⟩

theorem serHeadOk_cases {c : Char} (h : serHeadOk c = true) :
    c = '"' ∨ c = '{' ∨ c = '[' ∨ c = 'n' ∨ c = 't' ∨ c = 'f' ∨ c = '-' ∨
      isDigitC c = true := by
  by_cases h1 : c = '"'
  · exact Or.inl h1
  by_cases h2 : c = '{'
  · exact Or.inr (Or.inl h2)
  by_cases h3 : c = '['
  · exact Or.inr (Or.inr (Or.inl h3))
  by_cases h4 : c = 'n'
  · exact Or.inr (Or.inr (Or.inr (Or.inl h4)))
  by_cases h5 : c = 't'
  · exact Or.inr (Or.inr (Or.inr (Or.inr (Or.inl h5))))
  by_cases h6 : c = 'f'
  · exact Or.inr (Or.inr (Or.inr (Or.inr (Or.inr (Or.inl h6)))))
  by_cases h7 : c = '-'
  · exact Or.inr (Or.inr (Or.inr (Or.inr (Or.inr (Or.inr (Or.inl h7))))))
  refine Or.inr (Or.inr (Or.inr (Or.inr (Or.inr (Or.inr (Or.inr ?_))))))
  unfold serHeadOk at h
  simp only [h1, h2, h3, h4, h5, h6, h7, decide_False, Bool.false_or] at h
  exact h

theorem serHeadOk_not_ws {c : Char} (h : serHeadOk c = true) : isJsonWs c = false := by
  rcases serHeadOk_cases h with h | h | h | h | h | h | h | h
  all_goals try (subst h; decide)
  simp only [isJsonWs, Bool.or_eq_false_iff, decide_eq_false_iff_not]
  refine ⟨⟨⟨?_, ?_⟩, ?_⟩, ?_⟩ <;>
    exact isDigitC_ne h (by decide)

theorem serHeadOk_ne_brackets {c : Char} (h : serHeadOk c = true) :
    c ≠ ']' ∧ c ≠ '}' := by
  rcases serHeadOk_cases h with h | h | h | h | h | h | h | h
  all_goals try (subst h; exact ⟨by decide, by decide⟩)
  exact ⟨isDigitC_ne h (by decide), isDigitC_ne h (by decide)⟩

theorem skipWs_not_ws {c : Char} (h : isJsonWs c = false) (r : List Char) :
    skipWs (c :: r) = c :: r := by
  simp [skipWs, h]

theorem skipWs_ser (v : Json) (rest : List Char) :
    skipWs (Json.ser v ++ rest) = Json.ser v ++ rest := by
  obtain ⟨c, r, h, hok⟩ := ser_head v
  rw [h]
  exact skipWs_not_ws (serHeadOk_not_ws hok) _

theorem escBody_length (s : List Char) : s.length ≤ ((s.map escChar).flatten).length := by
  induction s with
  | nil => simp
  | cons c s ih =>
    simp only [List.map_cons, List.flatten_cons, List.length_append, List.length_cons]
    have := escChar_length_pos c
    omega

/-! ## Python dict reconstruction -/

theorem insertPair_fresh (m : JObj) (k : List Char) (v : Json)
    (h : ∀ p ∈ m, p.1 ≠ k) : insertPair m k v = m ++ [(k, v)] := by
  induction m with
  | nil => rfl
  | cons p m ih =>
    have hne : p.1 ≠ k := h p (by simp)
    obtain ⟨k0, v0⟩ := p
    simp only [insertPair, if_neg hne, List.cons_append, List.cons.injEq, true_and]
    exact ih fun q hq => h q (by simp [hq])

theorem keysNodup_cons {k : List Char} {ks : List (List Char)}
    (h : keysNodup (k :: ks) = true) :
    keysNodup ks = true ∧ ∀ k2 ∈ ks, k2 ≠ k := by
  simp only [keysNodup, Bool.and_eq_true, Bool.not_eq_true'] at h
  refine ⟨h.2, fun k2 hk2 e => ?_⟩
  rw [e] at hk2
  have hc : ks.contains k = true := List.elem_eq_true_of_mem hk2
  rw [h.1] at hc
  exact absurd hc (by simp)

theorem foldl_insertPair (ps : JObj) : ∀ acc : JObj,
    keysNodup (ps.map Prod.fst) = true →
    (∀ p ∈ ps, ∀ q ∈ acc, q.1 ≠ p.1) →
    ps.foldl (fun m p => insertPair m p.1 p.2) acc = acc ++ ps := by
  induction ps with
  | nil =>
    intro acc _ _
    simp
  | cons p ps ih =>
    intro acc hnodup hdisj
    simp only [List.map_cons] at hnodup
    obtain ⟨hnd, hfresh⟩ := keysNodup_cons hnodup
    simp only [List.foldl_cons]
    rw [insertPair_fresh acc p.1 p.2 (fun q hq => hdisj p (by simp) q hq)]
    rw [ih (acc ++ [(p.1, p.2)]) hnd ?_]
    · simp
    · intro q hq r hr
      rcases List.mem_append.mp hr with hr | hr
      · exact hdisj q (by simp [hq]) r hr
      · simp only [List.mem_singleton] at hr
        subst hr
        have : q.1 ≠ p.1 := by
          have := hfresh q.1 (List.mem_map_of_mem Prod.fst hq)
          exact this
        simp
        exact fun e => this e.symm

theorem pairsToObj_distinct (ps : JObj) (h : keysNodup (ps.map Prod.fst) = true) :
    pairsToObj ps = ps := by
  unfold pairsToObj
  rw [foldl_insertPair ps [] h (fun p _ q hq => absurd hq (by simp))]
  simp

/-! ## Fuel bounds -/

mutual

theorem jfuel_le_ser (v : Json) : jfuel v ≤ (Json.ser v).length := by
  cases v with
  | null => decide
  | bool b => cases b <;> decide
  | int n =>
    show 1 ≤ (intChars n).length
    rcases h : intChars n with _ | ⟨c, r⟩
    · obtain ⟨c, r, h2, _⟩ := ser_head (.int n)
      rw [show Json.ser (.int n) = intChars n from rfl] at h2
      rw [h] at h2
      exact absurd h2 (by simp)
    · simp
  | str s =>
    show 1 ≤ (serStr s).length
    simp [serStr]
  | arr xs =>
    show 1 + itemsFuel xs ≤ ('[' :: serItems xs ++ [']']).length
    have := itemsFuel_le_ser xs
    simp only [List.cons_append, List.length_cons, List.length_append, List.length_singleton]
    omega
  | obj kvs =>
    show 1 + membersFuel kvs ≤ ('{' :: serMembers kvs ++ ['}']).length
    have := membersFuel_le_ser kvs
    simp only [List.cons_append, List.length_cons, List.length_append, List.length_singleton]
    omega

theorem itemsFuel_le_ser (xs : List Json) : itemsFuel xs ≤ (serItems xs).length + 1 := by
  cases xs with
  | nil => simp [itemsFuel, serItems]
  | cons x xs =>
    cases xs with
    | nil =>
      show 1 + jfuel x + itemsFuel [] ≤ (Json.ser x).length + 1
      have := jfuel_le_ser x
      simp only [itemsFuel]
      omega
    | cons y ys =>
      show 1 + jfuel x + itemsFuel (y :: ys) ≤ (Json.ser x ++ ',' :: serItems (y :: ys)).length + 1
      have h1 := jfuel_le_ser x
      have h2 := itemsFuel_le_ser (y :: ys)
      simp only [List.length_append, List.length_cons]
      omega

theorem membersFuel_le_ser (kvs : JObj) : membersFuel kvs ≤ (serMembers kvs).length + 1 := by
  cases kvs with
  | nil => simp [membersFuel, serMembers]
  | cons p kvs =>
    obtain ⟨k, v⟩ := p
    cases kvs with
    | nil =>
      show 1 + jfuel v + membersFuel [] ≤ (serStr k ++ ':' :: Json.ser v).length + 1
      have := jfuel_le_ser v
      simp only [membersFuel, List.length_append, List.length_cons]
      omega
    | cons q kvs =>
      show 1 + jfuel v + membersFuel (q :: kvs) ≤
        (serStr k ++ ':' :: Json.ser v ++ ',' :: serMembers (q :: kvs)).length + 1
      have h1 := jfuel_le_ser v
      have h2 := membersFuel_le_ser (q :: kvs)
      simp only [List.length_append, List.length_cons]
      omega

end

theorem jfuel_pos (v : Json) : 1 ≤ jfuel v := by
  cases v <;> simp [jfuel]

theorem serItems_cons_eq (x : Json) (xs : List Json) :
    ∃ t, serItems (x :: xs) = Json.ser x ++ t := by
  cases xs with
  | nil => exact ⟨[], by simp [serItems]⟩
  | cons y ys => exact ⟨',' :: serItems (y :: ys), rfl⟩

theorem serMembers_cons_eq (k : List Char) (v : Json) (kvs : JObj) :
    ∃ t, serMembers ((k, v) :: kvs) = serStr k ++ t := by
  cases kvs with
  | nil => exact ⟨':' :: Json.ser v, rfl⟩
  | cons q kvs =>
    refine ⟨':' :: Json.ser v ++ ',' :: serMembers (q :: kvs), ?_⟩
    show serStr k ++ ':' :: Json.ser v ++ ',' :: serMembers (q :: kvs) = _
    simp

theorem sepBoundary_comma (r : List Char) : SepBoundary (',' :: r) :=
  Or.inr ⟨r, Or.inl rfl⟩

theorem sepBoundary_rbracket (r : List Char) : SepBoundary (']' :: r) :=
  Or.inr ⟨r, Or.inr (Or.inl rfl)⟩

theorem sepBoundary_rbrace (r : List Char) : SepBoundary ('}' :: r) :=
  Or.inr ⟨r, Or.inr (Or.inr rfl)⟩

theorem parse_ser (fuel : Nat) :
    (∀ v rest, Json.wf v = true → jfuel v ≤ fuel → SepBoundary rest →
      parseVal fuel (Json.ser v ++ rest) = some (v, rest)) ∧
    (∀ x xs rest, itemsWf (x :: xs) = true → itemsFuel (x :: xs) ≤ fuel →
      parseItems fuel (serItems (x :: xs) ++ ']' :: rest) = some (x :: xs, rest)) ∧
    (∀ k v kvs rest, membersWf ((k, v) :: kvs) = true → membersFuel ((k, v) :: kvs) ≤ fuel →
      parseMembers fuel (serMembers ((k, v) :: kvs) ++ '}' :: rest) =
        some ((k, v) :: kvs, rest)) := by
  induction fuel using Nat.strong_induction_on with
  | _ fuel ih =>
    refine ⟨?_, ?_, ?_⟩
    · intro v rest hwf hfuel hsep
      cases fuel with
      | zero => exact absurd hfuel (by have := jfuel_pos v; omega)
      | succ f =>
        cases v with
        | null =>
          show parseVal (f + 1) (['n', 'u', 'l', 'l'] ++ rest) = some (.null, rest)
          simp [parseVal, parseLit]
        | bool b =>
          cases b
          · show parseVal (f + 1) (['f', 'a', 'l', 's', 'e'] ++ rest) =
              some (.bool false, rest)
            simp [parseVal, parseLit]
          · show parseVal (f + 1) (['t', 'r', 'u', 'e'] ++ rest) = some (.bool true, rest)
            simp [parseVal, parseLit]
        | int n =>
          have hnum := parseNumber_intChars n rest hsep
          show parseVal (f + 1) (intChars n ++ rest) = some (.int n, rest)
          by_cases hn : n < 0
          · have he : intChars n = '-' :: natDigits n.natAbs := by
              simp [intChars, hn]
            rw [he]
            rw [he] at hnum
            simp only [List.cons_append] at hnum ⊢
            simp [parseVal, hnum]
          · have he : intChars n = natDigits n.toNat := by
              simp [intChars, hn]
            rcases hD : natDigits n.toNat with _ | ⟨d, ds⟩
            · exact absurd hD (natDigits_ne_nil _)
            have hd : isDigitC d = true := by
              have := natDigits_all_digits n.toNat d
              rw [hD] at this
              exact this (by simp)
            rw [he, hD]
            rw [he, hD] at hnum
            simp only [List.cons_append] at hnum ⊢
            have n1 : d ≠ '"' := isDigitC_ne hd (by decide)
            have n2 : d ≠ '{' := isDigitC_ne hd (by decide)
            have n3 : d ≠ '[' := isDigitC_ne hd (by decide)
            have n4 : d ≠ 'n' := isDigitC_ne hd (by decide)
            have n5 : d ≠ 't' := isDigitC_ne hd (by decide)
            have n6 : d ≠ 'f' := isDigitC_ne hd (by decide)
            simp [parseVal, n1, n2, n3, n4, n5, n6, hd, hnum]
        | str s =>
          show parseVal (f + 1) (serStr s ++ rest) = some (.str s, rest)
          simp only [serStr, List.cons_append, List.append_assoc, List.singleton_append,
            List.nil_append]
          rw [parseVal]
          simp only [reduceIte]
          rw [scanString_escBody s rest _ (by
            simp only [List.length_append, List.length_cons]
            have := escBody_length s
            omega)]
          rfl
        | arr xs =>
          cases xs with
          | nil =>
            show parseVal (f + 1) ('[' :: (serItems [] ++ [']']) ++ rest) =
              some (.arr [], rest)
            simp [serItems, parseVal, skipWs, isJsonWs]
          | cons x xs =>
            have hwf2 : itemsWf (x :: xs) = true := by
              simpa [Json.wf] using hwf
            have hfl : itemsFuel (x :: xs) ≤ f := by
              simp only [jfuel] at hfuel
              omega
            have hitems := (ih f (by omega)).2.1 x xs rest hwf2 hfl
            show parseVal (f + 1) ('[' :: serItems (x :: xs) ++ [']'] ++ rest) =
              some (.arr (x :: xs), rest)
            obtain ⟨t, ht⟩ := serItems_cons_eq x xs
            obtain ⟨c, r, hx, hok⟩ := ser_head x
            have hne := (serHeadOk_ne_brackets hok).1
            have hnw := serHeadOk_not_ws hok
            rw [ht, hx] at hitems ⊢
            simp only [List.cons_append, List.append_assoc, List.singleton_append,
              List.nil_append] at hitems ⊢
            simp [parseVal, skipWs, hnw, hne, hitems]
        | obj kvs =>
          cases kvs with
          | nil =>
            show parseVal (f + 1) ('{' :: (serMembers [] ++ ['}']) ++ rest) =
              some (.obj [], rest)
            simp [serMembers, parseVal, skipWs, isJsonWs]
          | cons p kvs =>
            obtain ⟨k, v⟩ := p
            have hwfp : keysNodup (((k, v) :: kvs).map Prod.fst) = true ∧
                membersWf ((k, v) :: kvs) = true := by
              have he : Json.wf (.obj ((k, v) :: kvs)) =
                  (keysNodup (((k, v) :: kvs).map Prod.fst) && membersWf ((k, v) :: kvs)) := rfl
              rw [he, Bool.and_eq_true] at hwf
              exact hwf
            have hwf2 := hwfp.2
            have hnd := hwfp.1
            have hfl : membersFuel ((k, v) :: kvs) ≤ f := by
              simp only [jfuel] at hfuel
              omega
            have hmem := (ih f (by omega)).2.2 k v kvs rest hwf2 hfl
            show parseVal (f + 1) ('{' :: serMembers ((k, v) :: kvs) ++ ['}'] ++ rest) =
              some (.obj ((k, v) :: kvs), rest)
            obtain ⟨t, ht⟩ := serMembers_cons_eq k v kvs
            rw [ht] at hmem ⊢
            simp only [serStr, List.cons_append, List.append_assoc, List.singleton_append,
              List.nil_append] at hmem ⊢
            simp [parseVal, skipWs, isJsonWs, hmem, pairsToObj_distinct _ hnd]
    · intro x xs rest hwf hfuel
      cases fuel with
      | zero => exact absurd hfuel (by simp only [itemsFuel]; omega)
      | succ f =>
        have hx : Json.wf x = true := by
          simp only [itemsWf, Bool.and_eq_true] at hwf
          exact hwf.1
        cases xs with
        | nil =>
          have hval := (ih f (by omega)).1 x (']' :: rest) hx
            (by simp only [itemsFuel] at hfuel; omega) (sepBoundary_rbracket rest)
          show parseItems (f + 1) (Json.ser x ++ ']' :: rest) = some ([x], rest)
          simp [parseItems, hval, skipWs, isJsonWs]
        | cons y ys =>
          have hys : itemsWf (y :: ys) = true := by
            simp only [itemsWf, Bool.and_eq_true] at hwf ⊢
            exact hwf.2
          have hval := (ih f (by omega)).1 x
            (',' :: (serItems (y :: ys) ++ ']' :: rest)) hx
            (by simp only [itemsFuel] at hfuel; omega) (sepBoundary_comma _)
          have hitems := (ih f (by omega)).2.1 y ys rest hys
            (by simp only [itemsFuel] at hfuel ⊢; omega)
          show parseItems (f + 1) ((Json.ser x ++ ',' :: serItems (y :: ys)) ++ ']' :: rest) =
            some (x :: y :: ys, rest)
          obtain ⟨t, ht⟩ := serItems_cons_eq y ys
          obtain ⟨c, r, hy, hok⟩ := ser_head y
          have hnw := serHeadOk_not_ws hok
          rw [ht, hy] at hval hitems ⊢
          simp only [List.cons_append, List.append_assoc, List.nil_append] at hval hitems ⊢
          simp [parseItems, hval, skipWs_not_ws (show isJsonWs ',' = false by decide),
            skipWs_not_ws hnw, hitems]
    · intro k v kvs rest hwf hfuel
      cases fuel with
      | zero => exact absurd hfuel (by simp only [membersFuel]; omega)
      | succ f =>
        have hv : Json.wf v = true := by
          simp only [membersWf, Bool.and_eq_true] at hwf
          exact hwf.1
        cases kvs with
        | nil =>
          have hval := (ih f (by omega)).1 v ('}' :: rest) hv
            (by simp only [membersFuel] at hfuel; omega) (sepBoundary_rbrace rest)
          show parseMembers (f + 1) ((serStr k ++ ':' :: Json.ser v) ++ '}' :: rest) =
            some ([(k, v)], rest)
          simp only [serStr, List.cons_append, List.append_assoc, List.singleton_append,
            List.nil_append]
          rw [parseMembers]
          rw [scanString_escBody k (':' :: (Json.ser v ++ '}' :: rest)) _ (by
            simp only [List.length_append, List.length_cons]
            have := escBody_length k
            omega)]
          simp [hval, skipWs, isJsonWs, skipWs_ser v]
        | cons q kvs =>
          obtain ⟨k2, v2⟩ := q
          have hwf2 : membersWf ((k2, v2) :: kvs) = true := by
            simp only [membersWf, Bool.and_eq_true] at hwf ⊢
            exact hwf.2
          have hval := (ih f (by omega)).1 v
            (',' :: (serMembers ((k2, v2) :: kvs) ++ '}' :: rest)) hv
            (by simp only [membersFuel] at hfuel; omega) (sepBoundary_comma _)
          have hmem := (ih f (by omega)).2.2 k2 v2 kvs rest hwf2
            (by simp only [membersFuel] at hfuel ⊢; omega)
          show parseMembers (f + 1)
            ((serStr k ++ ':' :: Json.ser v ++ ',' :: serMembers ((k2, v2) :: kvs)) ++
              '}' :: rest) = some ((k, v) :: (k2, v2) :: kvs, rest)
          obtain ⟨t, ht⟩ := serMembers_cons_eq k2 v2 kvs
          rw [ht] at hval hmem ⊢
          simp only [serStr, List.cons_append, List.append_assoc, List.singleton_append,
            List.nil_append] at hval hmem ⊢
          rw [parseMembers]
          rw [scanString_escBody k
            (':' :: (Json.ser v ++ ',' ::
              ('"' :: ((k2.map escChar).flatten ++ '"' :: (t ++ '}' :: rest))))) _ (by
            simp only [List.length_append, List.length_cons]
            have := escBody_length k
            omega)]
          simp [hval, hmem, skipWs, isJsonWs, skipWs_ser v]

/-! ## Top-level codec round trip -/

theorem json_loads_ser (v : Json) (hwf : Json.wf v = true) :
    json_loads (Json.ser v) = some v := by
  have hfuel : jfuel v ≤ (Json.ser v).length + 1 := by
    have := jfuel_le_ser v
    omega
  have hskip : skipWs (Json.ser v) = Json.ser v := by
    have := skipWs_ser v []
    simpa using this
  have hval := (parse_ser ((Json.ser v).length + 1)).1 v [] hwf hfuel (Or.inl rfl)
  unfold json_loads
  rw [hskip]
  rw [show Json.ser v = Json.ser v ++ [] by simp] at hval ⊢
  simp only [List.append_nil] at hval ⊢
  rw [hval]
  simp [skipWs]

theorem hexDigitChar_ascii (d : Nat) (h : d < 16) : (hexDigitChar d).toNat < 128 := by
  interval_cases d <;> decide

theorem hex4_ascii (n : Nat) : ∀ c ∈ hex4 n, c.toNat < 128 := by
  intro c hc
  simp only [hex4, List.mem_cons, List.mem_singleton, List.not_mem_nil, or_false] at hc
  rcases hc with rfl | rfl | rfl | rfl <;>
    exact hexDigitChar_ascii _ (Nat.mod_lt _ (by norm_num))

theorem escChar_ascii (c : Char) : ∀ d ∈ escChar c, d.toNat < 128 := by
  intro d hd
  by_cases h1 : c = '\\'
  · subst h1
    rw [show escChar '\\' = ['\\', '\\'] from by decide] at hd
    rcases (by simpa using hd : d = '\\' ∨ d = '\\') with rfl | rfl <;> decide
  by_cases h2 : c = '"'
  · subst h2
    rw [show escChar '"' = ['\\', '"'] from by decide] at hd
    rcases (by simpa using hd : d = '\\' ∨ d = '"') with rfl | rfl <;> decide
  by_cases h3 : c = Char.ofNat 8
  · subst h3
    rw [show escChar (Char.ofNat 8) = ['\\', 'b'] from by decide] at hd
    rcases (by simpa using hd : d = '\\' ∨ d = 'b') with rfl | rfl <;> decide
  by_cases h4 : c = Char.ofNat 9
  · subst h4
    rw [show escChar (Char.ofNat 9) = ['\\', 't'] from by decide] at hd
    rcases (by simpa using hd : d = '\\' ∨ d = 't') with rfl | rfl <;> decide
  by_cases h5 : c = Char.ofNat 10
  · subst h5
    rw [show escChar (Char.ofNat 10) = ['\\', 'n'] from by decide] at hd
    rcases (by simpa using hd : d = '\\' ∨ d = 'n') with rfl | rfl <;> decide
  by_cases h6 : c = Char.ofNat 12
  · subst h6
    rw [show escChar (Char.ofNat 12) = ['\\', 'f'] from by decide] at hd
    rcases (by simpa using hd : d = '\\' ∨ d = 'f') with rfl | rfl <;> decide
  by_cases h7 : c = Char.ofNat 13
  · subst h7
    rw [show escChar (Char.ofNat 13) = ['\\', 'r'] from by decide] at hd
    rcases (by simpa using hd : d = '\\' ∨ d = 'r') with rfl | rfl <;> decide
  by_cases hp : 0x20 ≤ c.toNat ∧ c.toNat ≤ 0x7e
  · have e : escChar c = [c] := by
      unfold escChar
      rw [if_neg h1, if_neg h2, if_neg h3, if_neg h4, if_neg h5, if_neg h6, if_neg h7,
        if_pos hp]
    rw [e] at hd
    have : d = c := by simpa using hd
    subst this
    omega
  by_cases hb : c.toNat < 0x10000
  · have e : escChar c = '\\' :: 'u' :: hex4 c.toNat := by
      unfold escChar
      rw [if_neg h1, if_neg h2, if_neg h3, if_neg h4, if_neg h5, if_neg h6, if_neg h7,
        if_neg hp, if_pos hb]
    rw [e] at hd
    simp only [List.mem_cons] at hd
    rcases hd with rfl | rfl | hd
    · decide
    · decide
    · exact hex4_ascii _ d hd
  · have e : escChar c = '\\' :: 'u' :: hex4 (0xD800 + (c.toNat - 0x10000) / 0x400) ++
        '\\' :: 'u' :: hex4 (0xDC00 + (c.toNat - 0x10000) % 0x400) := by
      unfold escChar
      rw [if_neg h1, if_neg h2, if_neg h3, if_neg h4, if_neg h5, if_neg h6, if_neg h7,
        if_neg hp, if_neg hb]
    rw [e] at hd
    simp only [List.cons_append, List.mem_cons, List.mem_append] at hd
    rcases hd with rfl | rfl | hd
    · decide
    · decide
    rcases hd with hd | hd
    · exact hex4_ascii _ d hd
    rcases hd with rfl | rfl | hd
    · decide
    · decide
    · exact hex4_ascii _ d hd

theorem natDigits_ascii (n : Nat) : ∀ c ∈ natDigits n, c.toNat < 128 := by
  intro c hc
  have := isDigitC_iff.mp (natDigits_all_digits n c hc)
  omega

theorem serStr_ascii (s : List Char) : ∀ d ∈ serStr s, d.toNat < 128 := by
  intro d hd
  simp only [serStr, List.mem_cons, List.mem_append, List.mem_singleton] at hd
  rcases hd with (rfl | hd) | (rfl | h0)
  · decide
  · rw [List.mem_flatten] at hd
    obtain ⟨l, hl, hdl⟩ := hd
    rw [List.mem_map] at hl
    obtain ⟨c, _, rfl⟩ := hl
    exact escChar_ascii c d hdl
  · decide
  · exact absurd h0 (by simp)

theorem intChars_ascii (n : Int) : ∀ c ∈ intChars n, c.toNat < 128 := by
  intro c hc
  unfold intChars at hc
  split at hc
  · rcases List.mem_cons.mp hc with rfl | hc
    · decide
    · exact natDigits_ascii _ c hc
  · exact natDigits_ascii _ c hc

mutual

theorem ser_ascii (v : Json) : ∀ c ∈ Json.ser v, c.toNat < 128 := by
  cases v with
  | null =>
    intro c hc
    rcases (by simpa [Json.ser] using hc : c = 'n' ∨ c = 'u' ∨ c = 'l' ∨ c = 'l') with
      rfl | rfl | rfl | rfl <;> decide
  | bool b =>
    intro c hc
    cases b
    · rcases (by simpa [Json.ser] using hc : c = 'f' ∨ c = 'a' ∨ c = 'l' ∨ c = 's' ∨ c = 'e') with
        rfl | rfl | rfl | rfl | rfl <;> decide
    · rcases (by simpa [Json.ser] using hc : c = 't' ∨ c = 'r' ∨ c = 'u' ∨ c = 'e') with
        rfl | rfl | rfl | rfl <;> decide
  | int n => exact intChars_ascii n
  | str s => exact serStr_ascii s
  | arr xs =>
    intro c hc
    rcases (by simpa [Json.ser] using hc :
        c = '[' ∨ c ∈ serItems xs ∨ c = ']') with rfl | hc | rfl
    · decide
    · exact serItems_ascii xs c hc
    · decide
  | obj kvs =>
    intro c hc
    rcases (by simpa [Json.ser] using hc :
        c = '{' ∨ c ∈ serMembers kvs ∨ c = '}') with rfl | hc | rfl
    · decide
    · exact serMembers_ascii kvs c hc
    · decide

theorem serItems_ascii (xs : List Json) : ∀ c ∈ serItems xs, c.toNat < 128 := by
  cases xs with
  | nil =>
    intro c hc
    exact absurd hc (by simp [serItems])
  | cons x xs =>
    cases xs with
    | nil => exact ser_ascii x
    | cons y ys =>
      intro c hc
      rcases (by simpa [serItems] using hc :
          c ∈ Json.ser x ∨ c = ',' ∨ c ∈ serItems (y :: ys)) with hc | rfl | hc
      · exact ser_ascii x c hc
      · decide
      · exact serItems_ascii (y :: ys) c hc

theorem serMembers_ascii (kvs : JObj) : ∀ c ∈ serMembers kvs, c.toNat < 128 := by
  cases kvs with
  | nil =>
    intro c hc
    exact absurd hc (by simp [serMembers])
  | cons p kvs =>
    obtain ⟨k, v⟩ := p
    cases kvs with
    | nil =>
      intro c hc
      rcases (by simpa [serMembers] using hc :
          c ∈ serStr k ∨ c = ':' ∨ c ∈ Json.ser v) with hc | rfl | hc
      · exact serStr_ascii k c hc
      · decide
      · exact ser_ascii v c hc
    | cons q kvs =>
      intro c hc
      rcases (by simpa [serMembers] using hc :
          c ∈ serStr k ∨ c = ':' ∨ c ∈ Json.ser v ∨ c = ',' ∨
            c ∈ serMembers (q :: kvs)) with hc | rfl | hc | rfl | hc
      · exact serStr_ascii k c hc
      · decide
      · exact ser_ascii v c hc
      · decide
      · exact serMembers_ascii (q :: kvs) c hc

end

theorem utf8EncodeChar_ascii (c : Char) (h : c.toNat < 128) :
    utf8EncodeChar c = [c.toNat] := by
  unfold utf8EncodeChar
  rw [if_pos h]

theorem utf8Encode_ascii (cs : List Char) (h : ∀ c ∈ cs, c.toNat < 128) :
    utf8Encode cs = cs.map Char.toNat := by
  induction cs with
  | nil => rfl
  | cons c cs ih =>
    simp only [utf8Encode, List.map_cons, List.flatten_cons] at *
    rw [utf8EncodeChar_ascii c (h c (by simp))]
    rw [ih fun d hd => h d (by simp [hd])]
    rfl

theorem utf8DecodeLoop_ascii (cs : List Char) : ∀ fuel, cs.length ≤ fuel →
    (∀ c ∈ cs, c.toNat < 128) → utf8DecodeLoop fuel (cs.map Char.toNat) = some cs := by
  induction cs with
  | nil =>
    intro fuel _ _
    cases fuel <;> rfl
  | cons c cs ih =>
    intro fuel hf h
    have hc : c.toNat < 128 := h c (by simp)
    cases fuel with
    | zero => simp at hf
    | succ f =>
      rw [List.map_cons, utf8DecodeLoop]
      rw [show utf8DecodeOne (c.toNat :: cs.map Char.toNat) =
          some (c.toNat, cs.map Char.toNat) by
        unfold utf8DecodeOne
        dsimp only
        rw [if_pos hc]]
      dsimp only
      rw [ih f (by simp at hf; omega) fun d hd => h d (by simp [hd])]
      simp [Char.ofNat_toNat]

theorem utf8Decode_ascii (cs : List Char) (h : ∀ c ∈ cs, c.toNat < 128) :
    utf8Decode (cs.map Char.toNat) = some cs := by
  unfold utf8Decode
  exact utf8DecodeLoop_ascii cs _ (by simp) h

/-- `decode_payload` applied to the payload of `encode_message`: the full
round trip behind claim C1. -/
theorem decode_encode_payload (m : JObj) (hwf : Json.wf (.obj m) = true)
    (bs : List Nat) (henc : encode_message m = some bs) :
    decode_payload (bs.drop 4) = some m := by
  simp only [encode_message] at henc
  split at henc
  · exact absurd henc (by simp)
  · have hbs : bs = packLE32 (utf8Encode (Json.ser (.obj m))).length ++
        utf8Encode (Json.ser (.obj m)) := by
      injection henc with h
      exact h.symm
    subst hbs
    have hdrop : (packLE32 (utf8Encode (Json.ser (.obj m))).length ++
        utf8Encode (Json.ser (.obj m))).drop 4 = utf8Encode (Json.ser (.obj m)) := by
      rw [show (4 : Nat) = (packLE32 (utf8Encode (Json.ser (.obj m))).length).length
        from rfl]
      exact List.drop_left _ _
    rw [hdrop]
    unfold decode_payload
    rw [utf8Encode_ascii _ (ser_ascii (.obj m))]
    rw [utf8Decode_ascii _ (ser_ascii (.obj m))]
    dsimp only
    rw [json_loads_ser (.obj m) hwf]

/-! ## Dispatch auxiliary lemmas -/

theorem msgGet_erase_self (msg : JObj) (k : List Char) :
    msgGet (msgErase msg k) k = none := by
  induction msg with
  | nil => rfl
  | cons p msg ih =>
    by_cases h : p.1 = k
    · simp [msgErase, h] at ih ⊢
      exact ih
    · simp [msgErase, msgGet, h] at ih ⊢
      exact ih

theorem msgGet_erase_other (msg : JObj) (k k2 : List Char) (hne : k2 ≠ k) :
    msgGet (msgErase msg k) k2 = msgGet msg k2 := by
  induction msg with
  | nil => rfl
  | cons p msg ih =>
    obtain ⟨pk, pv⟩ := p
    by_cases h : pk = k
    · have hpk2 : ¬ pk = k2 := by
        rw [h]
        exact fun e => hne e.symm
      have e1 : msgErase ((pk, pv) :: msg) k = msgErase msg k := by
        simp [msgErase, List.filter_cons, h]
      have e2 : msgGet ((pk, pv) :: msg) k2 = msgGet msg k2 := by
        simp [msgGet, hpk2]
      rw [e1, e2, ih]
    · have e1 : msgErase ((pk, pv) :: msg) k = (pk, pv) :: msgErase msg k := by
        simp [msgErase, List.filter_cons, h]
      rw [e1]
      by_cases h2 : pk = k2
      · simp [msgGet, h2]
      · simp only [msgGet, if_neg h2]
        exact ih

/-! ## Claim theorems -/

/-- C1: for every Python-representable JSON dictionary `m` (arbitrary
nesting, unicode strings, empty objects; integer numbers — the model's
`Json` domain), decoding the payload portion of `encode_message m` (the
bytes after the 4-byte length prefix) with `decode_payload` returns `m`.
`Json.wf` states exactly that every object node has pairwise-distinct
keys, which every Python `dict` guarantees; the `encode_message m = some
bs` hypothesis states that the message is within the 1 MiB cap, where
encoding succeeds. -/
theorem c1_encode_decode_roundtrip (m : JObj) (hwf : Json.wf (.obj m) = true)
    (bs : List Nat) (henc : encode_message m = some bs) :
    decode_payload (bs.drop 4) = some m :=
  decode_encode_payload m hwf bs henc

/-- Witness for C1 at the concrete dictionary `{"a": 1}`. -/
theorem c1_encode_decode_roundtrip_witness :
    decode_payload (([7, 0, 0, 0] ++ [123, 34, 97, 34, 58, 49, 125]).drop 4) =
      some [(['a'], Json.int 1)] :=
  c1_encode_decode_roundtrip [(['a'], Json.int 1)] (by decide)
    ([7, 0, 0, 0] ++ [123, 34, 97, 34, 58, 49, 125]) (by rfl)

/-- C2 counterexample: a stream that ends after two bytes of the 4-byte
length prefix makes `_read_stdin_sync` return `None` ("no more
messages"), not raise `InvalidMessageError` as the claim states. -/
theorem c2_short_prefix_counterexample :
    read_stdin_sync [0, 0] = ReadOutcome.eof ∧
      read_stdin_sync [0, 0] ≠ ReadOutcome.invalid := by
  constructor
  · rfl
  · intro h
    exact absurd (rfl.trans h) (by decide)

/-- C2 amended: in the synchronous stdin path, a stream that ends before
the 4-byte length prefix is complete — after 0, 1, 2 or 3 bytes — yields
"no more messages" (`None`); `InvalidMessage` is raised only when the
full prefix arrives (with an in-cap length) but the stream ends before
the payload is complete. -/
theorem c2_read_eof_amended (input : List Nat) :
    (input.length < 4 → read_stdin_sync input = .eof) ∧
    (∀ a b c d rest, input = a :: b :: c :: d :: rest →
      unpackLE32 a b c d ≤ MAX_MESSAGE_SIZE →
      rest.length < unpackLE32 a b c d →
      read_stdin_sync input = .invalid) := by
  constructor
  · intro h
    unfold read_stdin_sync
    rw [if_pos]
    right
    simp
    omega
  · intro a b c d rest hin hcap hshort
    subst hin
    unfold read_stdin_sync
    rw [if_neg (by simp)]
    rw [show List.take 4 (a :: b :: c :: d :: rest) = [a, b, c, d] from rfl]
    rw [show decode_length_header [a, b, c, d] = some (unpackLE32 a b c d) from rfl]
    dsimp only
    rw [if_neg (by omega)]
    rw [show List.drop 4 (a :: b :: c :: d :: rest) = rest from rfl]
    rw [if_pos (by simp; omega)]

/-- Witness for C2 amended: two prefix bytes then EOF give `None`; a full
prefix announcing one byte with no payload gives `InvalidMessage`. -/
theorem c2_read_eof_amended_witness :
    read_stdin_sync [1, 1] = .eof ∧ read_stdin_sync [1, 0, 0, 0] = .invalid :=
  ⟨(c2_read_eof_amended [1, 1]).1 (by decide),
   (c2_read_eof_amended [1, 0, 0, 0]).2 1 0 0 0 [] rfl (by decide) (by decide)⟩

/-- C3 counterexample: `stop_server` on a server id with no process
record returns `False`, not success as the claim states. -/
theorem c3_stop_absent_counterexample :
    stop_server_entry [] "srv" = StopAction.returnFalse ∧
      stop_server_entry [] "srv" ≠ StopAction.returnTrueNoop := by
  constructor
  · rfl
  · intro h
    exact absurd (rfl.trans h) (by decide)

/-- C3 amended: `stop_server` returns failure (`False`) when no record
exists for the id or the record has no live process handle; it is a no-op
returning success (`True`) when a record with a handle is in any state
other than `running`/`starting` (in particular the terminal states
`stopped`, `crashed`, `error`); otherwise it proceeds to terminate the
process. -/
theorem c3_stop_noop_amended (procs : ProcTable) (id : String) :
    (tblGet procs id = none → stop_server_entry procs id = .returnFalse) ∧
    (∀ p, tblGet procs id = some p → p.hasHandle = false →
      stop_server_entry procs id = .returnFalse) ∧
    (∀ p, tblGet procs id = some p → p.hasHandle = true →
      p.state ≠ .running → p.state ≠ .starting →
      stop_server_entry procs id = .returnTrueNoop) := by
  refine ⟨fun h => ?_, fun p hp hh => ?_, fun p hp hh h1 h2 => ?_⟩
  · unfold stop_server_entry
    rw [h]
  · unfold stop_server_entry
    rw [hp]
    simp [hh]
  · unfold stop_server_entry
    rw [hp]
    simp [hh, h1, h2]

/-- Witness for C3 amended at a one-entry table holding a crashed process
with a handle, plus the no-handle and absent cases. -/
theorem c3_stop_noop_amended_witness :
    stop_server_entry
      [("a", ServerProcess.mk "a" "npm" "p" ProcessState.crashed
        none none none none none true)] "a" = .returnTrueNoop ∧
    stop_server_entry
      [("b", ServerProcess.mk "b" "npm" "p" ProcessState.error
        none none none none none false)] "b" = .returnFalse ∧
    stop_server_entry [] "c" = .returnFalse :=
  ⟨(c3_stop_noop_amended _ "a").2.2 _ (by rfl) (by rfl) (by decide) (by decide),
   (c3_stop_noop_amended _ "b").2.1 _ (by rfl) (by rfl),
   (c3_stop_noop_amended [] "c").1 (by rfl)⟩

/-- C4: when a monitored process exits, `_monitor_process` records the
exit code and stop time; the final state is `stopped` if the state at
exit was `stopping`, else `crashed` with an error message set if the exit
code is non-zero, else `stopped`. -/
theorem c4_monitor_exit_state (p : ServerProcess) (rc : Int) (now : Nat) :
    (monitor_on_exit p rc now).exit_code = some rc ∧
    (monitor_on_exit p rc now).stopped_at = some now ∧
    (p.state = .stopping → (monitor_on_exit p rc now).state = .stopped) ∧
    (p.state ≠ .stopping → rc ≠ 0 → (monitor_on_exit p rc now).state = .crashed ∧
      (monitor_on_exit p rc now).error_message.isSome = true) ∧
    (p.state ≠ .stopping → rc = 0 → (monitor_on_exit p rc now).state = .stopped) := by
  unfold monitor_on_exit
  dsimp only
  refine ⟨?_, ?_, fun h => ?_, fun h hrc => ?_, fun h hrc => ?_⟩
  · split
    · rfl
    · split <;> rfl
  · split
    · rfl
    · split <;> rfl
  · rw [if_pos h]
  · rw [if_neg h, if_pos hrc]
    exact ⟨rfl, rfl⟩
  · rw [if_neg h, if_neg (by simp [hrc])]

/-- Witness for C4: a running process exiting with code 2 ends crashed
with the code recorded; one exiting with 0 ends stopped; one in
`stopping` ends stopped. -/
theorem c4_monitor_exit_state_witness :
    (monitor_on_exit (ServerProcess.mk "s" "npm" "p" ProcessState.running
      none none none none none true) 2 5).state = ProcessState.crashed ∧
    (monitor_on_exit (ServerProcess.mk "s" "npm" "p" ProcessState.running
      none none none none none true) 2 5).exit_code = some 2 ∧
    (monitor_on_exit (ServerProcess.mk "s" "npm" "p" ProcessState.running
      none none none none none true) 0 5).state = ProcessState.stopped ∧
    (monitor_on_exit (ServerProcess.mk "s" "npm" "p" ProcessState.stopping
      none none none none none true) 2 5).state = ProcessState.stopped :=
  ⟨((c4_monitor_exit_state _ 2 5).2.2.2.1 (by decide) (by decide)).1,
   (c4_monitor_exit_state _ 2 5).1,
   (c4_monitor_exit_state _ 0 5).2.2.2.2 (by decide) rfl,
   (c4_monitor_exit_state _ 2 5).2.2.1 rfl⟩

/-- C5: calling `start_server` for an id whose record is in state
`running` returns the existing record unchanged, leaves the process table
untouched, and does not reach the spawn path — no second process. -/
theorem c5_start_running_idempotent (procs : ProcTable)
    (id package_type package_id : String) (p : ServerProcess)
    (hget : tblGet procs id = some p) (hrun : p.state = .running) :
    start_server_entry procs id package_type package_id = (.returnExisting p, procs) := by
  unfold start_server_entry
  rw [hget]
  dsimp only
  rw [if_pos hrun]

/-- Witness for C5 at a one-entry table with a running record. -/
theorem c5_start_running_idempotent_witness :
    start_server_entry
      [("a", ServerProcess.mk "a" "npm" "p" ProcessState.running
        none none none none none true)] "a" "npm" "p" =
    (.returnExisting (ServerProcess.mk "a" "npm" "p" ProcessState.running
        none none none none none true),
      [("a", ServerProcess.mk "a" "npm" "p" ProcessState.running
        none none none none none true)]) :=
  c5_start_running_idempotent _ "a" "npm" "p" _ (by rfl) (by rfl)

/-- C6: for an installed server id, `start(id)` fails before delegating
to the Process Runner — with the missing names reported — whenever some
required environment variable flagged as secret (with a proper, non-empty
name, as any real environment variable has) is not stored for the id;
once every such secret is stored, it delegates to the runner passing the
stored secrets as the environment overlay (which the runner merges over
the process environment). -/
theorem c6_start_secret_gating (servers : InstalledState) (secrets : SecretsState)
    (id : String) (server : InstalledServer)
    (hget : installedGet servers id = some server) :
    ((∃ v ∈ server.required_env_vars, v.isSecret = true ∧ v.name ≠ "" ∧
        (secretKeys (secretsFor secrets id)).contains v.name = false) →
      manager_start servers secrets id =
        .missingSecretsError
          ((get_missing_secrets secrets id server.required_env_vars).map (·.name))) ∧
    ((∀ v ∈ server.required_env_vars, v.isSecret = true →
        (secretKeys (secretsFor secrets id)).contains v.name = true) →
      manager_start servers secrets id =
        .delegate id server.package_type server.package_id (secretsFor secrets id)
          (if server.args = [] then none else some server.args)) := by
  constructor
  · intro ⟨v, hv, hsec, hname, hstored⟩
    have hnotmem : v.name ∉ secretKeys (secretsFor secrets id) := by
      intro hm
      have h2 : (secretKeys (secretsFor secrets id)).contains v.name = true :=
        List.elem_eq_true_of_mem hm
      rw [h2] at hstored
      exact absurd hstored (by simp)
    have hmem : v ∈ get_missing_secrets secrets id server.required_env_vars := by
      unfold get_missing_secrets
      rw [List.mem_filter]
      refine ⟨hv, ?_⟩
      simp [hsec, hname, hnotmem]
    have hne : get_missing_secrets secrets id server.required_env_vars ≠ [] := by
      intro he
      rw [he] at hmem
      exact absurd hmem (by simp)
    unfold manager_start
    rw [hget]
    dsimp only
    rw [if_pos hne]
  · intro hall
    have hmiss : get_missing_secrets secrets id server.required_env_vars = [] := by
      unfold get_missing_secrets
      rw [List.filter_eq_nil_iff]
      intro v hv
      by_cases hsec : v.isSecret = true
      · have hc := hall v hv hsec
        have hm := List.mem_of_elem_eq_true hc
        simp [hm]
      · simp only [Bool.not_eq_true] at hsec
        simp [hsec]
    unfold manager_start
    rw [hget]
    dsimp only
    rw [if_neg (by simp [hmiss])]

/-- Witness for C6: a server requiring the secret `API_KEY` fails fast
with that name while the secret store is empty, and delegates once the
secret is stored. -/
theorem c6_start_secret_gating_witness :
    manager_start
      [("a", InstalledServer.mk "a" "A" "npm" "pkg" [] [EnvVarDecl.mk "API_KEY" true])]
      [] "a" = .missingSecretsError ["API_KEY"] ∧
    manager_start
      [("a", InstalledServer.mk "a" "A" "npm" "pkg" [] [EnvVarDecl.mk "API_KEY" true])]
      [("a", [("API_KEY", "xyz")])] "a" =
        .delegate "a" "npm" "pkg" [("API_KEY", "xyz")] none :=
  ⟨(c6_start_secret_gating _ [] "a"
      (InstalledServer.mk "a" "A" "npm" "pkg" [] [EnvVarDecl.mk "API_KEY" true])
      (by rfl)).1 ⟨EnvVarDecl.mk "API_KEY" true, by decide⟩,
   (c6_start_secret_gating _ [("a", [("API_KEY", "xyz")])] "a"
      (InstalledServer.mk "a" "A" "npm" "pkg" [] [EnvVarDecl.mk "API_KEY" true])
      (by rfl)).2 (by decide)⟩

/-- C7: after the connection store loads its records from disk, every
loaded record has status `disconnected` and a cleared `error_message`,
whatever the persisted values were. -/
theorem c7_load_resets_status (disk : Option ServerMap) (sid : String) (s : MCPServer)
    (hmem : (sid, s) ∈ store_load disk) :
    s.status = .disconnected ∧ s.error_message = none := by
  unfold store_load at hmem
  rw [List.mem_map] at hmem
  obtain ⟨kv, _, heq⟩ := hmem
  have hs : s = { kv.2 with status := .disconnected, error_message := none } := by
    have := congrArg Prod.snd heq
    exact this.symm
  rw [hs]
  exact ⟨rfl, rfl⟩

/-- Witness for C7: a record persisted as `connected` with an error
message loads as `disconnected` with the message cleared. -/
theorem c7_load_resets_status_witness :
    (store_load (some [("x", MCPServer.mk "x" "L" "http://u" ServerStatus.connected
      (some "boom"))])).head?.map (fun kv => (kv.2.status, kv.2.error_message)) =
      some (ServerStatus.disconnected, none) := by
  have h := c7_load_resets_status
    (some [("x", MCPServer.mk "x" "L" "http://u" ServerStatus.connected (some "boom"))])
    "x" (MCPServer.mk "x" "L" "http://u" ServerStatus.disconnected none) (by decide)
  simp [store_load, h.1, h.2]

/-- C8 counterexample: `ServerStore.save` writes the whole document
directly at the target path and performs no rename, so the write is not
an atomic temporary-file-and-rename replacement; the same holds for the
installed-server and secret stores. -/
theorem c8_not_atomic_counterexample :
    ¬ AtomicReplace (store_save_trace "d" []) ("d" ++ "/servers.json") ∧
    ¬ AtomicReplace (manager_save_trace "h" [])
        ("h" ++ "/.harbor/installed_servers.json") ∧
    ¬ AtomicReplace (secrets_save_trace "h" [])
        ("h" ++ "/.harbor/secrets/credentials.json") := by
  refine ⟨fun h => ?_, fun h => ?_, fun h => ?_⟩ <;>
  · obtain ⟨-, tmp, doc, -, -, hr⟩ := h
    simp [store_save_trace, manager_save_trace, secrets_save_trace] at hr

/-- C8 amended: every persisted-document write opens the target file
directly and rewrites the whole document in place; no temporary path and
no rename is involved, for any of the three stores, so the writes are not
atomic with respect to a concurrent reader. -/
theorem c8_save_direct_write_amended (home dataDir : String) (sm : ServerMap)
    (ist : InstalledState) (sst : SecretsState) :
    FsOp.writeWhole (dataDir ++ "/servers.json") (serversDoc sm) ∈
      store_save_trace dataDir sm ∧
    FsOp.writeWhole (home ++ "/.harbor/installed_servers.json") (installedDoc ist) ∈
      manager_save_trace home ist ∧
    FsOp.writeWhole (home ++ "/.harbor/secrets/credentials.json") (secretsDoc sst) ∈
      secrets_save_trace home sst ∧
    (∀ tgt, ¬ AtomicReplace (store_save_trace dataDir sm) tgt) ∧
    (∀ tgt, ¬ AtomicReplace (manager_save_trace home ist) tgt) ∧
    (∀ tgt, ¬ AtomicReplace (secrets_save_trace home sst) tgt) := by
  refine ⟨by simp [store_save_trace], by simp [manager_save_trace],
    by simp [secrets_save_trace], fun tgt h => ?_, fun tgt h => ?_, fun tgt h => ?_⟩ <;>
  · obtain ⟨-, tmp, doc, -, -, hr⟩ := h
    simp [store_save_trace, manager_save_trace, secrets_save_trace] at hr

/-- C9: a message whose `type` field holds the empty string — or any
other falsy value — is answered with an `invalid_message` error carrying
the message's request id, exactly as when `type` is absent (erasing the
field changes nothing), and no handler is invoked; in particular the
`unknown_message_type` branch is not reached. -/
theorem c9_dispatch_falsy_type (msg : JObj) (j : Json)
    (hget : msgGet msg ['t', 'y', 'p', 'e'] = some j) (hfalsy : pyFalsy j = true) :
    dispatch_message msg =
      .response (make_error_response (msgRequestId msg) "invalid_message".toList) ∧
    dispatch_message msg = dispatch_message (msgErase msg ['t', 'y', 'p', 'e']) ∧
    (∀ t, dispatch_message msg ≠ .callHandler t) := by
  have h1 : dispatch_message msg =
      .response (make_error_response (msgRequestId msg) "invalid_message".toList) := by
    unfold dispatch_message
    rw [hget]
    dsimp only
    rw [if_pos hfalsy]
  have h2 : dispatch_message (msgErase msg ['t', 'y', 'p', 'e']) =
      .response (make_error_response (msgRequestId msg) "invalid_message".toList) := by
    unfold dispatch_message
    rw [msgGet_erase_self]
    dsimp only
    rw [if_pos rfl]
    unfold msgRequestId
    rw [msgGet_erase_other msg _ _ (by decide)]
  refine ⟨h1, h1.trans h2.symm, fun t he => ?_⟩
  rw [h1] at he
  exact absurd he (by simp)

/-- Witness for C9 at the concrete message
`{"type": "", "request_id": "r"}`. -/
theorem c9_dispatch_falsy_type_witness :
    dispatch_message [(['t', 'y', 'p', 'e'], Json.str []),
        (['r', 'e', 'q', 'u', 'e', 's', 't', '_', 'i', 'd'], Json.str ['r'])] =
      .response (make_error_response (Json.str ['r']) "invalid_message".toList) :=
  (c9_dispatch_falsy_type _ (Json.str []) (by rfl) (by rfl)).1

/-- C10: `update_status` on a loaded store, for a server id with no
record, returns `None` and leaves the server map exactly as it was — no
record is created or modified. -/
theorem c10_update_status_missing (servers : ServerMap) (id : String)
    (status : ServerStatus) (error_message : Option String)
    (habs : srvGet servers id = none) :
    store_update_status servers id status error_message = (none, servers) := by
  unfold store_update_status
  rw [habs]

/-- Witness for C10: updating an unknown id on a one-record store changes
nothing. -/
theorem c10_update_status_missing_witness :
    store_update_status [("a", MCPServer.mk "a" "L" "http://u" ServerStatus.disconnected
        none)] "zzz" ServerStatus.connected (some "e") =
      (none, [("a", MCPServer.mk "a" "L" "http://u" ServerStatus.disconnected none)]) :=
  c10_update_status_missing _ "zzz" ServerStatus.connected (some "e") (by rfl)
